import Mathlib

/-!
# Verification of the web-proxy content-rewriting pipeline

A shallow embedding of the URL codec, HTML/CSS rewriters, charset
detector, upstream dispatcher and response pipeline of the proxy server
(`src/server.js`), together with proofs and refutations of the spec's
claims about them.

Strings are modelled through their character lists (`String.data`);
string helpers (`strTrim`, `strStartsWith`, ...) are defined over
`List Char` so that every definition is executable and amenable to
equational reasoning.  The WHATWG `URL` constructor and the legacy
`url.resolve` of Node are modelled by `parseURLData` / `urlResolve`:
faithful to the component split (scheme, host, port, path, query,
fragment), host/scheme lowercasing and empty-host failure, while
eliding percent-encoding normalisation and IPv6/IDNA host forms.
-/

namespace WebProxy

/-! ## Character classes and string helpers -/

/-- JavaScript whitespace recognised by `String.prototype.trim`
(restricted to the ASCII range). -/
def isWS (c : Char) : Bool :=
  c == ' ' || c == '\t' || c == '\n' || c == '\r' ||
  c == Char.ofNat 11 || c == Char.ofNat 12

def isAlphaChar (c : Char) : Bool :=
  ('a' ≤ c && c ≤ 'z') || ('A' ≤ c && c ≤ 'Z')

def isDigitChar (c : Char) : Bool :=
  '0' ≤ c && c ≤ '9'

/-- Characters allowed in a URL scheme. -/
def isSchemeChar (c : Char) : Bool :=
  isAlphaChar c || isDigitChar c || c == '+' || c == '-' || c == '.'

/-- The character class `[\w.-]` of the path-form host regex in
`app.all('/proxy*')`. -/
def isHostRegexChar (c : Char) : Bool :=
  isAlphaChar c || isDigitChar c || c == '_' || c == '.' || c == '-'

/-- ASCII lowercasing of one character (the behaviour of
`String.prototype.toLowerCase` on ASCII input). -/
def lowerChar (c : Char) : Char :=
  if 'A' ≤ c && c ≤ 'Z' then Char.ofNat (c.toNat + 32) else c

def lowerList (l : List Char) : List Char := l.map lowerChar

def strToLower (s : String) : String := ⟨lowerList s.data⟩

/-- `trim` on a character list: strip leading and trailing whitespace. -/
def trimList (l : List Char) : List Char :=
  ((l.dropWhile isWS).reverse.dropWhile isWS).reverse

/-- Model of `String.prototype.trim`. -/
def strTrim (s : String) : String := ⟨trimList s.data⟩

/-- Model of `String.prototype.startsWith`. -/
def strStartsWith (s p : String) : Bool := p.data.isPrefixOf s.data

def containsList (pat : List Char) : List Char → Bool
  | [] => pat.isPrefixOf []
  | a :: t => pat.isPrefixOf (a :: t) || containsList pat t

/-- Model of `String.prototype.includes`. -/
def strContains (s pat : String) : Bool := containsList pat.data s.data

def takeUntilChar (c : Char) (l : List Char) : List Char :=
  l.takeWhile (fun a => a != c)

def dropUntilChar (c : Char) (l : List Char) : List Char :=
  l.dropWhile (fun a => a != c)

/-- Prefix of `l` before the first occurrence of the substring `pat`
(the whole of `l` if `pat` does not occur). -/
def takeUntilInfix (pat : List Char) : List Char → List Char
  | [] => []
  | a :: t => if pat.isPrefixOf (a :: t) then [] else a :: takeUntilInfix pat t

def splitOnCharAux (c : Char) : List Char → List Char → List (List Char)
  | [], cur => [cur.reverse]
  | a :: t, cur =>
    if a == c then cur.reverse :: splitOnCharAux c t []
    else splitOnCharAux c t (a :: cur)

/-- Model of `String.prototype.split` with a one-character separator. -/
def splitOnChar (c : Char) (l : List Char) : List (List Char) :=
  splitOnCharAux c l []

def splitWsAux : Nat → List Char → List Char → List (List Char)
  | 0, _, cur => [cur.reverse]
  | _ + 1, [], cur => [cur.reverse]
  | fuel + 1, a :: t, cur =>
    if isWS a then cur.reverse :: splitWsAux fuel (t.dropWhile isWS) []
    else splitWsAux fuel t (a :: cur)

/-- Model of `String.prototype.split(/\s+/)`: split on maximal
whitespace runs. -/
def splitWs (l : List Char) : List (List Char) :=
  splitWsAux (l.length + 1) l []

/-- Characters that terminate a URL path (start of query or fragment). -/
def notQH (c : Char) : Bool := (c != '?') && (c != '#')

def joinWith (sep : List Char) : List (List Char) → List Char
  | [] => []
  | [x] => x
  | x :: xs => x ++ sep ++ joinWith sep xs

/-! ## URL model

`URLRec` is the component view a `new URL(...)` object exposes to the
program: `protocol` (without the colon), `hostname`, `port`, `pathname`,
`search` (with leading `?`, or empty), `hash` (with leading `#`, or
empty).  `parseURLData` models the WHATWG parser on the cases the proxy
exercises: special schemes `http`/`https` get an authority (lowercased
hostname, numeric port, empty-host and invalid-port failures), any other
scheme is treated as an opaque path. -/

structure URLRec where
  scheme : String
  hostname : String
  port : String
  pathname : String
  search : String
  hash : String
deriving DecidableEq, Repr

/-- `url.host` of the parsed URL: hostname plus `:port` when a port is
present. -/
def hostOf (u : URLRec) : String :=
  u.hostname ++ (if u.port = "" then "" else ":" ++ u.port)

/-- Split `pathname? ++ search? ++ hash?` (everything after the
authority, resp. after the scheme for opaque URLs) into the three
components.  `special` selects the http(s) convention that an empty
path serialises as `/`. -/
def splitPathSearchHash (special : Bool) (r : List Char) :
    List Char × List Char × List Char :=
  let stop := r.head? = none ∨ r.head? = some '?' ∨ r.head? = some '#'
  let pn : List Char :=
    if stop then (if special then ['/'] else []) else r.takeWhile notQH
  let r4 : List Char :=
    if r.head? = none then []
    else if r.head? = some '?' ∨ r.head? = some '#' then r
    else r.dropWhile notQH
  let search : List Char :=
    if r4.head? = some '?' then
      (let q := r4.tail.takeWhile (fun c => c != '#')
       if q = [] then [] else '?' :: q)
    else []
  let r5 : List Char :=
    if r4.head? = some '?' then r4.tail.dropWhile (fun c => c != '#') else r4
  let hash : List Char :=
    if r5.head? = some '#' then (if r5.tail = [] then [] else '#' :: r5.tail)
    else []
  (pn, search, hash)

/-- Suffix of `l` after the last occurrence of `c` (all of `l` when `c`
does not occur). -/
def afterLastChar (c : Char) (l : List Char) : List Char :=
  (l.reverse.takeWhile (fun a => a != c)).reverse

/-- Split `host[:port]`: the part after the last colon is the candidate
port. -/
def splitHostPort (l : List Char) : List Char × List Char :=
  if l.any (fun a => a == ':') then
    ((l.reverse.dropWhile (fun a => a != ':')).drop 1 |>.reverse,
     (l.reverse.takeWhile (fun a => a != ':')).reverse)
  else (l, [])

/-- Lexicographic greater-than on equal-length digit strings (numeric
comparison of canonical, zero-stripped decimal representations). -/
def digitsGT : List Char → List Char → Bool
  | a :: t, b :: u => if a = b then digitsGT t u else b < a
  | _, _ => false

/-- Canonical decimal form of a nonempty digit string: strip leading
zeros (an all-zero string becomes `0`). -/
def canonPortDigits (d : List Char) : List Char :=
  let s := d.dropWhile (fun c => c == '0')
  if s = [] then ['0'] else s

/-- WHATWG port handling on the digit run after the colon: reject
values above 65535, re-serialize the numeric value (dropping leading
zeros), and elide the scheme's default port (80 for http, 443 for
https). `none` models the constructor throwing. -/
def portPipeline (scheme : String) (d : List Char) : Option (List Char) :=
  if d = [] then some []
  else
    let c := canonPortDigits d
    if 5 < c.length then none
    else if c.length = 5 ∧ digitsGT c ['6', '5', '5', '3', '5'] = true then none
    else if (scheme = "http" ∧ c = ['8', '0']) ∨
            (scheme = "https" ∧ c = ['4', '4', '3']) then some []
    else some c

/-- C0 controls and characters above `~` (percent-encoded in every
WHATWG component encode set). -/
def c0Above (c : Char) : Bool := c < ' ' || '~' < c

/-- The WHATWG fragment percent-encode set. -/
def fragEncodeSet (c : Char) : Bool :=
  c0Above c || c == ' ' || c == Char.ofNat 34 || c == '<' || c == '>' ||
  c == Char.ofNat 96

/-- The WHATWG special-query percent-encode set (http(s) URLs encode
the apostrophe as well). -/
def queryEncodeSet (c : Char) : Bool :=
  c0Above c || c == ' ' || c == Char.ofNat 34 || c == '#' || c == '<' ||
  c == '>' || c == Char.ofNat 39

/-- The WHATWG path percent-encode set. -/
def pathEncodeSet (c : Char) : Bool :=
  c0Above c || c == ' ' || c == Char.ofNat 34 || c == '#' || c == '<' ||
  c == '>' || c == '?' || c == Char.ofNat 96 || c == Char.ofNat 123 ||
  c == Char.ofNat 125

def hexUpper (n : Nat) : Char :=
  if n < 10 then Char.ofNat (48 + n) else Char.ofNat (55 + n)

/-- UTF-8 bytes of one code point. -/
def utf8Bytes (c : Char) : List Nat :=
  let n := c.toNat
  if n < 128 then [n]
  else if n < 2048 then [192 + n / 64, 128 + n % 64]
  else if n < 65536 then
    [224 + n / 4096, 128 + (n / 64) % 64, 128 + n % 64]
  else
    [240 + n / 262144, 128 + (n / 4096) % 64, 128 + (n / 64) % 64,
     128 + n % 64]

/-- Percent-encode one character when it lies in the given encode
set. -/
def percentEncodeChar (set : Char → Bool) (c : Char) : List Char :=
  if set c then
    ((utf8Bytes c).map (fun b => ['%', hexUpper (b / 16), hexUpper (b % 16)])).flatten
  else [c]

def percentEncodeList (set : Char → Bool) (l : List Char) : List Char :=
  (l.map (percentEncodeChar set)).flatten

/-- Backslashes act as path separators in special URLs. -/
def backslashToSlash (l : List Char) : List Char :=
  l.map (fun c => if c = '\\' then '/' else c)

/-- The authority/path part of the WHATWG parse for the special schemes
`http`/`https`: consume slashes, split off the authority, strip
userinfo, split host and port, canonicalize and possibly elide the
port, split path/query/fragment, and percent-encode each component
with its WHATWG encode set (dot-segment removal and IPv4/IDNA host
normalization are elided; `PathFormWF` below confines the verified
round-trip domain to URLs on which those are no-ops). -/
def parseSpecial (scheme : String) (r1 : List Char) : Option URLRec :=
  let r2 := r1.dropWhile (fun a => a == '/')
  let auth := r2.takeWhile (fun a => notQH a && a != '/')
  let r3 := r2.dropWhile (fun a => notQH a && a != '/')
  if auth = [] then none else
  let hostport := afterLastChar '@' auth
  let hnpt := splitHostPort hostport
  if hnpt.1 = [] then none
  else if hnpt.2.all isDigitChar = false then none
  else if hnpt.1.all (fun a => !isWS a) = false then none
  else
    match portPipeline scheme hnpt.2 with
    | none => none
    | some prt =>
      let psh := splitPathSearchHash true r3
      some ⟨scheme, ⟨lowerList hnpt.1⟩, ⟨prt⟩,
            ⟨percentEncodeList pathEncodeSet (backslashToSlash psh.1)⟩,
            ⟨percentEncodeList queryEncodeSet psh.2.1⟩,
            ⟨percentEncodeList fragEncodeSet psh.2.2⟩⟩

/-- Model of `new URL(...)` on an absolute URL given as a character
list; `none` models the constructor throwing. -/
def parseURLData (l : List Char) : Option URLRec :=
  let sch := l.takeWhile isSchemeChar
  match sch.head? with
  | none => none
  | some c0 =>
    if isAlphaChar c0 = false then none else
    match l.dropWhile isSchemeChar with
    | ':' :: r1 =>
      let scheme : String := ⟨lowerList sch⟩
      if scheme = "http" ∨ scheme = "https" then parseSpecial scheme r1
      else
        let psh := splitPathSearchHash false r1
        some ⟨scheme, "", "", ⟨psh.1⟩, ⟨psh.2.1⟩, ⟨psh.2.2⟩⟩
    | _ => none

/-- Model of `new URL(...)` on strings. -/
def parseURL (s : String) : Option URLRec := parseURLData s.data

/-- The canonical absolute form of a parsed http(s) URL (its `href`). -/
def serializeURL (u : URLRec) : String :=
  u.scheme ++ "://" ++ hostOf u ++ u.pathname ++ u.search ++ u.hash

/-- Does the string begin with `scheme:`? (used by the legacy resolver
to decide whether the second argument is already absolute). -/
def hasScheme (l : List Char) : Bool :=
  let sch := l.takeWhile isSchemeChar
  match sch.head? with
  | none => false
  | some c0 =>
    isAlphaChar c0 &&
    (match l.dropWhile isSchemeChar with
     | ':' :: _ => true
     | _ => false)

/-- RFC 3986 dot-segment removal (approximation used by the legacy
resolver). -/
def removeDotSegments (l : List Char) : List Char :=
  let segs := splitOnChar '/' l
  let out := segs.foldl
    (fun acc seg =>
      if seg = ['.'] then acc
      else if seg = ['.', '.'] then
        (if acc.length ≤ 1 then acc else acc.dropLast)
      else acc ++ [seg])
    ([] : List (List Char))
  joinWith ['/'] out

/-- Model of the legacy Node `url.resolve(base, rel)`: scheme-bearing
inputs pass through, otherwise RFC 3986 relative resolution against the
parsed base. -/
def urlResolve (base rel : String) : String :=
  if hasScheme rel.data then rel
  else
    match parseURL base with
    | none => rel
    | some bu =>
      if strStartsWith rel "//" then bu.scheme ++ ":" ++ rel
      else
        let origin := bu.scheme ++ "://" ++ hostOf bu
        if strStartsWith rel "/" then
          let psh := splitPathSearchHash true rel.data
          origin ++ ⟨removeDotSegments psh.1⟩ ++ ⟨psh.2.1⟩ ++ ⟨psh.2.2⟩
        else if strStartsWith rel "?" then
          origin ++ bu.pathname ++ rel
        else if strStartsWith rel "#" then
          origin ++ bu.pathname ++ bu.search ++ rel
        else
          let psh := splitPathSearchHash false rel.data
          let dir := (bu.pathname.data.reverse.dropWhile (fun a => a != '/')).reverse
          origin ++ ⟨removeDotSegments (dir ++ psh.1)⟩ ++ ⟨psh.2.1⟩ ++ ⟨psh.2.2⟩

/-! ## URL codec: `rewriteURL` (src/server.js lines 130-172) -/

/-- The short-circuit test of `rewriteURL` (note: the source does *not*
test `about:`). -/
def shortCircuitB (t : String) : Bool :=
  strStartsWith t "data:" || strStartsWith t "javascript:" ||
  strStartsWith t "mailto:" || strStartsWith t "tel:" ||
  t == "#" || strStartsWith t "blob:"

/-- Model of `rewriteURL(originalUrl, baseUrl, proxyBase)`: trim, skip
short-circuit schemes, make absolute, parse, and emit the path-form
proxy-local URL; parse failure returns the (trimmed) input. -/
def rewriteURL (originalUrl baseUrl proxyBase : String) : String :=
  if originalUrl = "" then originalUrl
  else
    let t := strTrim originalUrl
    if t = "" then t
    else if shortCircuitB t then t
    else
      let absoluteUrl :=
        if strStartsWith t "//" then "https:" ++ t
        else if strStartsWith t "http://" || strStartsWith t "https://" then t
        else urlResolve baseUrl t
      match parseURL absoluteUrl with
      | none => t
      | some p =>
        proxyBase ++ "/proxy/" ++ p.scheme ++ "/" ++ hostOf p ++
          p.pathname ++ p.search ++ p.hash

/-! ## Request resolver: path form (src/server.js lines 604-620)

`app.all('/proxy*')` matches `req.path` against
`^\/proxy\/(https?)\/([\w.-]+(?:\:\d+)?)(.*)$` and reconstructs
`protocol://host(path || '/')queryString`, `queryString` being the raw
substring of `req.url` from its first `?`. -/

/-- The host/port/path part of the path-form regex, after `/proxy/` and
the protocol have been consumed. -/
def pathFormHost (proto : String) (l : List Char) :
    Option (String × String × String) :=
  let host := l.takeWhile isHostRegexChar
  if host = [] then none
  else
    let l2 := l.dropWhile isHostRegexChar
    match l2 with
    | ':' :: t =>
      let d := t.takeWhile isDigitChar
      if d = [] then some (proto, ⟨host⟩, ⟨l2⟩)
      else some (proto, ⟨host ++ ':' :: d⟩, ⟨t.dropWhile isDigitChar⟩)
    | _ => some (proto, ⟨host⟩, ⟨l2⟩)

/-- The path-form regex `^\/proxy\/(https?)\/([\w.-]+(?:\:\d+)?)(.*)$`
on `req.path`, returning (protocol, host, path). -/
def pathFormMatch (l : List Char) : Option (String × String × String) :=
  match l with
  | '/' :: 'p' :: 'r' :: 'o' :: 'x' :: 'y' :: '/' :: 'h' :: 't' :: 't' :: 'p' :: rest =>
    match rest with
    | 's' :: '/' :: r2 => pathFormHost "https" r2
    | '/' :: r2 => pathFormHost "http" r2
    | _ => none
  | _ => none

/-- Path-form resolution of an incoming request line (path plus raw
query): `req.path` is the part before the first `?` or `#`, the raw
query string is the substring of `req.url` from its first `?`. -/
def resolveProxyPath (reqUrl : String) : Option String :=
  let l := reqUrl.data
  let reqPath := l.takeWhile notQH
  let qs : List Char := if l.any (fun a => a == '?') then
      l.dropWhile (fun a => a != '?') else []
  match pathFormMatch reqPath with
  | some (proto, host, path) =>
    some (proto ++ "://" ++ host ++ (if path = "" then "/" else path) ++ (⟨qs⟩ : String))
  | none => none

/-- Drop a known proxy-base prefix from a rewritten URL, leaving the
request path the browser would send to the proxy. -/
def stripProxyBase (pb s : String) : String :=
  if strStartsWith s pb then ⟨s.data.drop pb.data.length⟩ else s

/-! ## Response pipeline headers (src/server.js lines 876-899) -/

/-- The blocklist applied when copying upstream headers. -/
def isBlockedHeader (k : String) : Bool :=
  strToLower k == "content-security-policy" ||
  strToLower k == "x-frame-options" ||
  strToLower k == "content-encoding" ||
  strToLower k == "transfer-encoding" ||
  strToLower k == "referrer-policy"

/-- `res.set(key, value)`: replace any existing header with the same
(case-insensitive) name. -/
def setHeader (hs : List (String × String)) (k v : String) :
    List (String × String) :=
  hs.filter (fun p => strToLower p.1 != strToLower k) ++ [(k, v)]

/-- First header value with the given (case-insensitive) name. -/
def lookupHeader (hs : List (String × String)) (k : String) : Option String :=
  (hs.find? (fun p => strToLower p.1 == strToLower k)).map (·.2)

/-- Copy the upstream headers, skipping the blocklist. -/
def copyHeaders (upstream : List (String × String)) : List (String × String) :=
  upstream.foldl
    (fun acc kv => if isBlockedHeader kv.1 then acc else setHeader acc kv.1 kv.2)
    []

/-- The outgoing header map built by `proxyRequest` for an upstream
response: copy minus blocklist, then the three stamped headers, then
`Set-Cookie` forwarded verbatim when present. -/
def emitHeaders (upstream : List (String × String)) : List (String × String) :=
  let h0 := copyHeaders upstream
  let h1 := setHeader h0 "Access-Control-Allow-Origin" "*"
  let h2 := setHeader h1 "X-Frame-Options" "ALLOWALL"
  let h3 := setHeader h2 "Referrer-Policy" "unsafe-url"
  match lookupHeader upstream "set-cookie" with
  | some c => setHeader h3 "Set-Cookie" c
  | none => h3

/-! ## Upstream dispatcher outcome (src/server.js lines 858-877) -/

/-- Failure modes of the outbound `request(...)` call. -/
inductive UpstreamError where
  | dns       -- ENOTFOUND
  | timeout   -- ETIMEDOUT
  | transport -- any other network failure
deriving DecidableEq, Repr

/-- Outcome delivered to the `request` callback. -/
inductive FetchOutcome where
  | failed (e : UpstreamError)
  | ok (statusCode : Nat) (headers : List (String × String)) (body : String)
deriving DecidableEq, Repr

/-- Status code emitted by `proxyRequest`: the callback returns 502 for
*every* error and otherwise copies `response.statusCode`. -/
def dispatchStatus : FetchOutcome → Nat
  | .failed _ => 502
  | .ok s _ _ => s

/-! ## Cookie handling (src/server.js lines 656-692, 742-758, 896-899)

The `/proxy*` route builds its `request` options with `jar: true`
(the request library's process-global cookie jar) and forwards the
client's `Cookie` header; the catch-all route sets no `jar` and no
`Cookie`.  The jar is modelled as the list of cookie pairs stored so
far; the request library appends jar cookies after an explicitly set
`Cookie` header. -/

structure DispatchOptions where
  jar : Bool
  cookieHeader : Option String
deriving DecidableEq, Repr

/-- Options of the `/proxy*` route: `jar: true`, client cookie
forwarded when present. -/
def proxyRouteOptions (cookie : Option String) : DispatchOptions :=
  ⟨true, cookie⟩

/-- Options of the catch-all (Referer fallback) route: no jar, no
cookie forwarding. -/
def catchallRouteOptions : DispatchOptions := ⟨false, none⟩

def joinCookies : List String → String
  | [] => ""
  | [c] => c
  | c :: cs => c ++ "; " ++ joinCookies cs

/-- The `Cookie` header the request library sends upstream, given the
options and the global jar state. -/
def outboundCookie (opts : DispatchOptions) (jar : List String) : Option String :=
  if opts.jar then
    match opts.cookieHeader, jar with
    | some c, [] => some c
    | some c, js => some (c ++ "; " ++ joinCookies js)
    | none, [] => none
    | none, js => some (joinCookies js)
  else opts.cookieHeader

/-- Jar state after a response: `jar: true` stores the upstream
`Set-Cookie` pairs in the global jar, otherwise nothing is stored. -/
def stepJar (opts : DispatchOptions) (jar : List String)
    (setCookies : List String) : List String :=
  if opts.jar then jar ++ setCookies else jar

/-- Outbound `Cookie` header of a second `/proxy` request after a first
`/proxy` request whose upstream answered with `firstSetCookies`
(neither request carries a client cookie). -/
def secondOutboundCookie (firstSetCookies : List String) : Option String :=
  outboundCookie (proxyRouteOptions none)
    (stepJar (proxyRouteOptions none) [] firstSetCookies)

/-! ## Charset detection (src/server.js lines 49-127) -/

/-- JavaScript truthiness of a nullable string: `null` and `""` are
falsy. -/
def truthyOpt : Option String → Option String
  | some "" => none
  | none => none
  | some s => some s

/-- Scan for the first case-insensitive occurrence of `charset=`
followed by at least one non-`;` character; capture that run. -/
def scanCharsetParam : List Char → Option (List Char)
  | [] => none
  | a :: t =>
    let l := a :: t
    if ("charset=".data).isPrefixOf (lowerList l) then
      let cap := (l.drop 8).takeWhile (fun c => c != ';')
      if cap = [] then scanCharsetParam t else some cap
    else scanCharsetParam t

/-- Model of `detectCharsetFromContentType`: regex
`/charset=([^;]+)/i`, then trim and strip quote characters. -/
def detectCharsetFromContentType (contentType : String) : Option String :=
  if contentType = "" then none
  else
    match scanCharsetParam contentType.data with
    | some cap =>
      some ⟨(trimList cap).filter
        (fun c => c != Char.ofNat 39 && c != Char.ofNat 34)⟩
    | none => none

/-- Suffix of `l` from the first position where `pat` is a
case-insensitive prefix (empty when `pat` does not occur). -/
def dropUntilInfixCI (pat : List Char) : List Char → List Char
  | [] => []
  | a :: t =>
    if pat.isPrefixOf (lowerList (a :: t)) then a :: t
    else dropUntilInfixCI pat t

/-- Inside one `<meta ...>` tag window (no `>` crossed), find
`charset=` preceded by at least one character, skip an optional quote,
and capture the run of characters outside `["'\s>]`. -/
def scanMetaCharset : List Char → Option (List Char)
  | [] => none
  | a :: t =>
    let l := a :: t
    if ("<meta".data).isPrefixOf (lowerList l) then
      let window := (l.drop 5).takeWhile (fun c => c != '>')
      let found := match window with
        | [] => []
        | _ :: wrest => dropUntilInfixCI ("charset=".data) wrest
      match found with
      | [] => scanMetaCharset t
      | _ =>
        let afterEq := found.drop 8
        let afterQ := match afterEq with
          | c :: t2 => if c = Char.ofNat 34 || c = Char.ofNat 39 then t2 else afterEq
          | [] => afterEq
        let cap := afterQ.takeWhile
          (fun c => c != Char.ofNat 34 && c != Char.ofNat 39 && !isWS c && c != '>')
        if cap = [] then scanMetaCharset t else some cap
    else scanMetaCharset t

/-- Model of `detectCharsetFromHTML`: read the first 1024 bytes and
scan `<meta ... charset=...>` tags (this covers both the bare
`<meta charset>` pattern and the `http-equiv` pattern of the source,
whose second regex only fires when `charset=` occurs in the tag). -/
def detectCharsetFromHTML (buffer : String) : Option String :=
  match scanMetaCharset (buffer.data.take 1024) with
  | some cap => some ⟨trimList cap⟩
  | none => none

/-- The charset aliases table of `decodeBuffer`. -/
def charsetAlias (c : String) : String :=
  if c = "iso-8859-1" then "latin1"
  else if c = "iso8859-1" then "latin1"
  else if c = "windows-1252" then "cp1252"
  else if c = "utf8" then "utf-8"
  else c

/-- Lowercase, underscores to hyphens, then aliases. -/
def normalizeCharset (c : String) : String :=
  charsetAlias ⟨(lowerList c.data).map (fun a => if a = '_' then '-' else a)⟩

/-- Finite model of the encodings `iconv-lite` supports
(`iconv.encodingExists`). -/
def supportedEncodings : List String :=
  ["utf-8", "utf-16", "utf-16le", "utf-16be", "latin1", "ascii",
   "cp1252", "iso-8859-2", "iso-8859-15", "koi8-r", "windows-1251",
   "shift-jis", "euc-jp", "gb2312", "big5", "euc-kr"]

/-- The charset `decodeBuffer` ends up decoding with: Content-Type
parameter, else HTML sniff for `text/html`, else UTF-8; normalised,
aliased, and replaced by UTF-8 when unsupported. -/
def selectedCharset (buffer contentType : String) : String :=
  let fromHeader := truthyOpt (detectCharsetFromContentType contentType)
  let afterSniff :=
    match fromHeader with
    | some c => some c
    | none =>
      if contentType != "" && strContains contentType "text/html" then
        truthyOpt (detectCharsetFromHTML buffer)
      else none
  let raw := match afterSniff with
    | some c => c
    | none => "utf-8"
  let c1 := normalizeCharset raw
  if supportedEncodings.contains c1 then c1 else "utf-8"

/-- The charset selection as §4.2 of the spec words it: the
`charset=` parameter of Content-Type when it names something, else an
HTML `<meta>` sniff for `text/html` bodies, else UTF-8; normalise and
fall back to UTF-8 when unsupported. -/
def charsetSpec (buffer contentType : String) : String :=
  let step12 :=
    match truthyOpt (detectCharsetFromContentType contentType) with
    | some c => some c
    | none =>
      if strContains contentType "text/html" then
        truthyOpt (detectCharsetFromHTML buffer)
      else none
  let name := step12.getD "utf-8"
  let n := normalizeCharset name
  if supportedEncodings.contains n then n else "utf-8"

/-! ## YouTube special-casing (src/server.js lines 388-424, 640-646) -/

/-- `URLSearchParams.get`: first value for the key (percent-decoding of
values is elided; the handler only embeds or truthiness-tests them). -/
def searchParamsGet (search : String) (key : String) : Option String :=
  let qs := match search.data with
    | '?' :: t => t
    | l => l
  let pairs := splitOnChar '&' qs
  match pairs.find? (fun p => p.takeWhile (fun c => c != '=') = key.data) with
  | some p =>
    some ⟨match p.dropWhile (fun c => c != '=') with
          | '=' :: v => v
          | _ => []⟩
  | none => none

/-- The locally generated pages `handleYouTube` can answer with. -/
inductive YTPage where
  | embed (videoId : String)
  | search (query : String)
  | home
deriving DecidableEq, Repr

/-- Video id extraction for a `youtube.com` host: `/watch?v=`,
`/embed/<id>`, `/v/<id>`. -/
def ytVideoId (u : URLRec) : Option String :=
  if u.pathname = "/watch" then searchParamsGet u.search "v"
  else if strStartsWith u.pathname "/embed/" then
    some ⟨takeUntilChar '?'
      (takeUntilInfix ("/embed/".data) (u.pathname.data.drop 7))⟩
  else if strStartsWith u.pathname "/v/" then
    some ⟨takeUntilChar '?'
      (takeUntilInfix ("/v/".data) (u.pathname.data.drop 3))⟩
  else none

/-- Search-query extraction for `/results` and `/search*` paths:
`search_query` falling back to `q`, JavaScript-truthily. -/
def ytSearchQuery (u : URLRec) : Option String :=
  if u.pathname = "/results" || strStartsWith u.pathname "/search" then
    match truthyOpt (searchParamsGet u.search "search_query") with
    | some s => some s
    | none => truthyOpt (searchParamsGet u.search "q")
  else none

/-- Model of `handleYouTube(targetUrl, res)`: `none` models the `catch`
branch (URL failed to parse), otherwise a locally generated page is
always sent — search page, embed page, or the home page fallback. -/
def handleYouTube (targetUrl : String) : Option YTPage :=
  match parseURL targetUrl with
  | none => none
  | some u =>
    if strContains u.hostname "youtube.com" then
      match ytSearchQuery u with
      | some q => some (.search q)
      | none =>
        match truthyOpt (ytVideoId u) with
        | some v => some (.embed v)
        | none => some .home
    else if u.hostname = "youtu.be" then
      match truthyOpt (some ⟨takeUntilChar '?' (u.pathname.data.drop 1)⟩) with
      | some v => some (.embed v)
      | none => some .home
    else some .home

/-- The `/proxy*` handler's YouTube gate (lines 640-646): when the
validated target URL contains `youtube.com` or `youtu.be` as a
substring, `handleYouTube` runs and, unless it returned null, the
fetch-and-rewrite pipeline is skipped. -/
def youtubeGate (targetUrl : String) : Option YTPage :=
  if strContains targetUrl "youtube.com" || strContains targetUrl "youtu.be" then
    handleYouTube targetUrl
  else none

/-! ## HTML rewriter (src/server.js lines 175-373)

The DOM is modelled as a token stream: text runs, opening tags with an
attribute list, and closing tags.  `htmlTokenize` returns `none` when
the input ends inside a tag or an attribute quote — the failure mode
the source guards with `try/catch`.  (cheerio's implied-element tree
construction is elided; the rewriter's per-element attribute edits,
meta removal and head injection are represented on the token list.) -/

inductive HTMLNode where
  | text (s : String)
  | tag (name : String) (attrs : List (String × String)) (selfClose : Bool)
  | close (name : String)
deriving DecidableEq, Repr

def isTagNameChar (c : Char) : Bool :=
  isAlphaChar c || isDigitChar c || c == '-' || c == '!'

def isAttrNameChar (c : Char) : Bool :=
  c != '=' && c != '>' && c != '/' && !isWS c

/-- Attribute parsing inside a tag; returns the attributes, whether the
tag is self-closing, and the rest of the input.  `none` models a parse
error (unterminated tag or quote). -/
def parseAttrs : Nat → List Char → Option (List (String × String) × Bool × List Char)
  | 0, _ => none
  | _ + 1, [] => none
  | fuel + 1, l =>
    let l1 := l.dropWhile isWS
    match l1 with
    | [] => none
    | '>' :: r => some ([], false, r)
    | '/' :: '>' :: r => some ([], true, r)
    | _ =>
      let nm := l1.takeWhile isAttrNameChar
      if nm = [] then none
      else
        let r1 := (l1.dropWhile isAttrNameChar).dropWhile isWS
        match r1 with
        | '=' :: r2 =>
          let r3 := r2.dropWhile isWS
          match r3 with
          | c :: r4 =>
            if c = Char.ofNat 34 || c = Char.ofNat 39 then
              let v := r4.takeWhile (fun a => a != c)
              match r4.dropWhile (fun a => a != c) with
              | _ :: r5 =>
                (parseAttrs fuel r5).map
                  (fun res => ((⟨nm⟩, ⟨v⟩) :: res.1, res.2))
              | [] => none
            else
              let v := r3.takeWhile (fun a => !isWS a && a != '>')
              (parseAttrs fuel (r3.dropWhile (fun a => !isWS a && a != '>'))).map
                (fun res => ((⟨nm⟩, ⟨v⟩) :: res.1, res.2))
          | [] => none
        | _ =>
          (parseAttrs fuel r1).map (fun res => ((⟨nm⟩, "") :: res.1, res.2))

/-- Tokenizer; `none` models the parser throwing. -/
def htmlTokenizeAux : Nat → List Char → Option (List HTMLNode)
  | 0, _ => none
  | _ + 1, [] => some []
  | fuel + 1, '<' :: rest =>
    match rest with
    | '/' :: r2 =>
      let nm := r2.takeWhile (fun c => c != '>')
      match r2.dropWhile (fun c => c != '>') with
      | '>' :: r3 => (htmlTokenizeAux fuel r3).map (HTMLNode.close ⟨nm⟩ :: ·)
      | _ => none
    | _ =>
      let nm := rest.takeWhile isTagNameChar
      if nm = [] then none
      else
        match parseAttrs (fuel + 1) (rest.dropWhile isTagNameChar) with
        | some (attrs, sc, r2) =>
          (htmlTokenizeAux fuel r2).map
            (HTMLNode.tag (strToLower ⟨nm⟩) attrs sc :: ·)
        | none => none
  | fuel + 1, c :: rest =>
    let t := (c :: rest).takeWhile (fun a => a != '<')
    (htmlTokenizeAux fuel ((c :: rest).dropWhile (fun a => a != '<'))).map
      (HTMLNode.text ⟨t⟩ :: ·)

/-- Model of `cheerio.load` (tokenizer level). -/
def htmlParse (s : String) : Option (List HTMLNode) :=
  htmlTokenizeAux (s.data.length + 1) s.data

def quoteChar : String := ⟨[Char.ofNat 34]⟩

def serializeAttr (a : String × String) : String :=
  " " ++ a.1 ++ "=" ++ quoteChar ++ a.2 ++ quoteChar

def serializeNode : HTMLNode → String
  | .text s => s
  | .tag n attrs sc =>
    "<" ++ n ++ String.join (attrs.map serializeAttr) ++
      (if sc then "/>" else ">")
  | .close n => "</" ++ n ++ ">"

def serializeNodes (ns : List HTMLNode) : String :=
  String.join (ns.map serializeNode)

/-- Is this one of the meta tags the rewriter removes from the head? -/
def isRemovedMeta (n : HTMLNode) : Bool :=
  match n with
  | .tag "meta" attrs _ =>
    (attrs.contains ("http-equiv", "Content-Security-Policy")) ||
    (attrs.contains ("http-equiv", "X-Frame-Options")) ||
    (attrs.contains ("name", "referrer"))
  | _ => false

/-- The interception script injected into `<head>` (content abridged to
its emit-time parameters; the shim body is inert payload for the
rewriter). -/
def injectedScript (proxyBase scheme host : String) : String :=
  "<script>/* proxy shim: proxyBase=" ++ proxyBase ++
  " currentProtocol=" ++ scheme ++ " currentHost=" ++ host ++
  " rewrites fetch, XMLHttpRequest, form submissions and DOM mutations */</script>"

def injectedMeta : HTMLNode :=
  .tag "meta" [("name", "referrer"), ("content", "unsafe-url")] false

/-- Rewrite the attributes of one element as the cheerio passes do:
`a`/`link` href, `img`/`source`/`script`/`iframe`/`video`/`audio` src,
`form` action, and any `srcset`. -/
def rewriteAttrsOf (baseUrl proxyBase : String) (n : HTMLNode) : HTMLNode :=
  match n with
  | .tag name attrs sc =>
    let attrs := attrs.map (fun a =>
      if a.1 = "href" && (name = "a" || name = "link") && a.2 != "" then
        (a.1, rewriteURL a.2 baseUrl proxyBase)
      else if a.1 = "src" &&
          (name = "img" || name = "source" || name = "script" ||
           name = "iframe" || name = "video" || name = "audio") && a.2 != "" then
        (a.1, rewriteURL a.2 baseUrl proxyBase)
      else if a.1 = "action" && name = "form" && a.2 != "" then
        (a.1, rewriteURL a.2 baseUrl proxyBase)
      else if a.1 = "srcset" && a.2 != "" then
        (a.1, ⟨joinWith (", ".data)
          ((splitOnChar ',' a.2.data).map (fun s =>
            let parts := splitWs (trimList s)
            match parts with
            | [] => []
            | p0 :: rest =>
              joinWith [' '] ((rewriteURL ⟨p0⟩ baseUrl proxyBase).data :: rest)))⟩)
      else a)
    .tag name attrs sc
  | other => other

/-- Prepend the shim script and the referrer meta at the start of the
first `<head>` (cheerio prepends the meta first, then the script, so
the script ends up first). -/
def injectIntoHead (script : String) : List HTMLNode → List HTMLNode
  | [] => []
  | n :: rest =>
    match n with
    | .tag "head" _ _ =>
      n :: .text script :: injectedMeta :: rest
    | _ => n :: injectIntoHead script rest

/-- Model of `rewriteHTML(html, baseUrl, proxyBase)`: parse, remove the
hostile meta tags, inject the referrer meta and shim, rewrite the
URL-bearing attributes, and serialize; any failure (unparseable HTML,
or `new URL(baseUrl)` throwing) returns the input unchanged. -/
def rewriteHTML (html baseUrl proxyBase : String) : String :=
  match htmlParse html, parseURL baseUrl with
  | some toks, some parsedBase =>
    let toks := toks.filter (fun n => !isRemovedMeta n)
    let toks := injectIntoHead
      (injectedScript proxyBase parsedBase.scheme (hostOf parsedBase)) toks
    serializeNodes (toks.map (rewriteAttrsOf baseUrl proxyBase))
  | _, _ => html

/-! ## CSS rewriter (src/server.js lines 376-385) -/

/-- The character class `[^'")]` of the CSS url regex. -/
def cssArgChar (c : Char) : Bool :=
  c != ')' && c != Char.ofNat 34 && c != Char.ofNat 39

/-- After the captured argument, match `\1\s*\)` (closing quote when
one opened, optional whitespace, closing paren); return the rest. -/
def cssCloseMatch (quote : List Char) (rest : List Char) : Option (List Char) :=
  match quote, rest with
  | [], _ =>
    (match rest.dropWhile isWS with
     | ')' :: r => some r
     | _ => none)
  | [q], c :: r =>
    if c = q then
      match r.dropWhile isWS with
      | ')' :: r2 => some r2
      | _ => none
    else none
  | _, _ => none

/-- One scan step of the `url\s*\(\s*(['"]?)([^'")]+)\1\s*\)`
replacement: at each position try to match; on a match emit
`url(<quote><rewritten><quote>)` and continue after it, otherwise copy
one character. -/
def rewriteCSSAux (baseUrl proxyBase : String) : Nat → List Char → List Char
  | 0, l => l
  | _ + 1, [] => []
  | fuel + 1, a :: t =>
    let noMatch := a :: rewriteCSSAux baseUrl proxyBase fuel t
    if ("url".data).isPrefixOf (lowerList (a :: t)) then
      match ((a :: t).drop 3).dropWhile isWS with
      | '(' :: inner =>
        let innerT := inner.dropWhile isWS
        let quote : List Char := match innerT with
          | c :: _ => if c = Char.ofNat 34 || c = Char.ofNat 39 then [c] else []
          | [] => []
        let body := innerT.drop quote.length
        let arg := body.takeWhile cssArgChar
        if arg = [] then noMatch
        else
          match cssCloseMatch quote (body.dropWhile cssArgChar) with
          | some r =>
            ("url(".data ++ quote ++
              (rewriteURL (strTrim ⟨arg⟩) baseUrl proxyBase).data ++ quote ++ [')'])
            ++ rewriteCSSAux baseUrl proxyBase fuel r
          | none => noMatch
      | _ => noMatch
    else noMatch

/-- Model of `rewriteCSS`: rewrite every `url(...)` occurrence through
`rewriteURL`, preserving the quoting style. -/
def rewriteCSS (css baseUrl proxyBase : String) : String :=
  ⟨rewriteCSSAux baseUrl proxyBase (css.data.length + 1) css.data⟩

/-! ## Well-formedness of path-form-codable URLs

The shape of URL components for which the path-form round trip can be
stated: WHATWG-canonical http(s) URLs, i.e. URLs on which `new URL` is
the identity.  Concretely: a lowercase host drawn from the `[\w.-]`
class of the decode regex whose last dot-label does not start with a
digit (so no IPv4 re-canonicalization fires), a canonical non-default
port of at most four digits with no leading zero (or no port), a path
over the characters the WHATWG path serializer leaves verbatim with no
`.`/`..` segments, a query and fragment over their verbatim-safe
alphabets, a query that is either absent or nonempty, and a fragment
that is absent unless a query is present. -/

/-- Characters a WHATWG special-URL path keeps verbatim (also
excluding `%`, so no percent-sequence can be reinterpreted, and `\`,
which the parser folds into `/`). -/
def isPathSafeChar (c : Char) : Bool :=
  '!' ≤ c && c ≤ '~' && !(pathEncodeSet c) && c != '\\' && c != '%'

/-- Characters a WHATWG special-URL query keeps verbatim. -/
def isQuerySafeChar (c : Char) : Bool :=
  '!' ≤ c && c ≤ '~' && !(queryEncodeSet c)

/-- Characters a WHATWG fragment keeps verbatim. -/
def isFragSafeChar (c : Char) : Bool :=
  '!' ≤ c && c ≤ '~' && !(fragEncodeSet c)

/-- No `.` or `..` path segment (dot-segment removal is the
identity). -/
def noDotSegments (l : List Char) : Bool :=
  (splitOnChar '/' l).all (fun seg => seg ≠ ['.'] && seg ≠ ['.', '.'])

/-- The last dot-separated host label exists and does not start with a
digit, so the WHATWG IPv4 host interpretation does not fire. -/
def lastLabelOk (l : List Char) : Bool :=
  match (afterLastChar '.' l).head? with
  | some c => !isDigitChar c
  | none => false

/-- The canonicity conditions beyond the original component shape:
host not numeric-looking, port canonical and non-default, components
over their verbatim-safe alphabets, no dot segments. -/
def CanonExtras (u : URLRec) : Prop :=
  lastLabelOk u.hostname.data = true ∧
  (u.port = "" ∨
    (u.port.data.length ≤ 4 ∧ u.port.data.head? ≠ some '0' ∧
     ¬(u.scheme = "http" ∧ u.port = "80") ∧
     ¬(u.scheme = "https" ∧ u.port = "443"))) ∧
  u.pathname.data.all isPathSafeChar = true ∧
  noDotSegments u.pathname.data = true ∧
  u.search.data.all isQuerySafeChar = true ∧
  u.hash.data.all isFragSafeChar = true

instance (u : URLRec) : Decidable (CanonExtras u) := by
  unfold CanonExtras; infer_instance

def PathFormWF (u : URLRec) : Prop :=
  (u.scheme = "http" ∨ u.scheme = "https") ∧
  u.hostname ≠ "" ∧
  u.hostname.data.all isHostRegexChar = true ∧
  u.hostname.data.all (fun c => lowerChar c == c) = true ∧
  u.port.data.all isDigitChar = true ∧
  u.pathname.data.head? = some '/' ∧
  u.pathname.data.all (fun c => notQH c && !isWS c) = true ∧
  (u.search = "" ∨
    (u.search.data.head? = some '?' ∧ 2 ≤ u.search.data.length ∧
     u.search.data.all (fun c => c != '#' && !isWS c) = true)) ∧
  (u.hash = "" ∨
    (u.search ≠ "" ∧ u.hash.data.head? = some '#' ∧ 2 ≤ u.hash.data.length ∧
     u.hash.data.all (fun c => !isWS c) = true)) ∧
  CanonExtras u

instance (u : URLRec) : Decidable (PathFormWF u) := by
  unfold PathFormWF; infer_instance

/-! ## Basic string and list lemmas -/

theorem strData_append (a b : String) : (a ++ b).data = a.data ++ b.data := by
  cases a; cases b; rfl

theorem str_mk_data (l : List Char) : (⟨l⟩ : String).data = l := rfl

theorem str_eq_iff_data {a b : String} : a = b ↔ a.data = b.data := by
  cases a; cases b
  exact ⟨fun h => by injection h, fun h => congrArg String.mk h⟩

theorem str_ne_empty_of_data {s : String} (h : s.data ≠ []) : s ≠ "" := by
  intro he; apply h; rw [he]

theorem takeWhile_concat (p : Char → Bool) {pre suf : List Char}
    (h1 : pre.all p = true) (h2 : ∀ c, suf.head? = some c → p c = false) :
    (pre ++ suf).takeWhile p = pre := by
  induction pre with
  | nil =>
    simp only [List.nil_append]
    cases suf with
    | nil => rfl
    | cons c t => simp [List.takeWhile_cons, h2 c rfl]
  | cons a l ih =>
    simp only [List.all_cons, Bool.and_eq_true] at h1
    simp [List.takeWhile_cons, h1.1, ih h1.2]

theorem dropWhile_concat (p : Char → Bool) {pre suf : List Char}
    (h1 : pre.all p = true) (h2 : ∀ c, suf.head? = some c → p c = false) :
    (pre ++ suf).dropWhile p = suf := by
  induction pre with
  | nil =>
    simp only [List.nil_append]
    cases suf with
    | nil => rfl
    | cons c t => simp [List.dropWhile_cons, h2 c rfl]
  | cons a l ih =>
    simp only [List.all_cons, Bool.and_eq_true] at h1
    simp [List.dropWhile_cons, h1.1, ih h1.2]

theorem takeWhile_all {p : Char → Bool} {l : List Char}
    (h : l.all p = true) : l.takeWhile p = l := by
  induction l with
  | nil => rfl
  | cons a t ih =>
    simp only [List.all_cons, Bool.and_eq_true] at h
    simp [List.takeWhile_cons, h.1, ih h.2]

theorem dropWhile_of_none {p : Char → Bool} {l : List Char}
    (h : l.all (fun c => !p c) = true) : l.dropWhile p = l := by
  induction l with
  | nil => rfl
  | cons a t ih =>
    simp only [List.all_cons, Bool.and_eq_true, Bool.not_eq_true'] at h
    simp [List.dropWhile_cons, h.1, ih (by simpa using h.2)]

theorem isPrefixOf_self_append (l c : List Char) :
    l.isPrefixOf (l ++ c) = true := by
  induction l with
  | nil => simp [List.isPrefixOf]
  | cons a t ih => simp [List.isPrefixOf, ih]

theorem isPrefixOf_head_ne {a b : Char} {l1 l2 : List Char}
    (h : (a == b) = false) : (a :: l1).isPrefixOf (b :: l2) = false := by
  simp [List.isPrefixOf, h]

theorem all_mono {p q : Char → Bool} {l : List Char}
    (himp : ∀ c, p c = true → q c = true) (h : l.all p = true) :
    l.all q = true := by
  rw [List.all_eq_true] at h ⊢
  exact fun x hx => himp x (h x hx)

theorem any_eq_false_of_all {p q : Char → Bool} {l : List Char}
    (himp : ∀ c, q c = true → p c = false) (h : l.all q = true) :
    l.any p = false := by
  rw [List.all_eq_true] at h
  rw [List.any_eq_false]
  intro x hx hpx
  have := himp x (h x hx)
  rw [this] at hpx; exact Bool.false_ne_true hpx

theorem trim_of_no_ws {l : List Char} (h : l.all (fun c => !isWS c) = true) :
    trimList l = l := by
  unfold trimList
  rw [dropWhile_of_none h, dropWhile_of_none (by simpa using h), List.reverse_reverse]

theorem strTrim_of_no_ws {s : String} (h : s.data.all (fun c => !isWS c) = true) :
    strTrim s = s := by
  unfold strTrim
  rw [trim_of_no_ws h]

/-! ## Character-class lemmas -/

theorem beq_false_of_class {c x : Char} (p : Char → Bool)
    (h : p c = true) (hx : p x = false) : (c == x) = false := by
  cases hbe : c == x
  · rfl
  · have hcx : c = x := eq_of_beq hbe
    subst hcx
    rw [h] at hx
    exact absurd hx (by simp)

theorem bne_true_of_class {c x : Char} (p : Char → Bool)
    (h : p c = true) (hx : p x = false) : (c != x) = true := by
  simp [bne, beq_false_of_class p h hx]

theorem ws_false_of_class {c : Char} (p : Char → Bool) (h : p c = true)
    (h1 : p ' ' = false) (h2 : p '\t' = false) (h3 : p '\n' = false)
    (h4 : p '\r' = false) (h5 : p (Char.ofNat 11) = false)
    (h6 : p (Char.ofNat 12) = false) : isWS c = false := by
  unfold isWS
  rw [beq_false_of_class p h h1, beq_false_of_class p h h2,
      beq_false_of_class p h h3, beq_false_of_class p h h4,
      beq_false_of_class p h h5, beq_false_of_class p h h6]
  rfl

theorem hostChar_notQH {c : Char} (h : isHostRegexChar c = true) :
    notQH c = true := by
  unfold notQH
  rw [bne_true_of_class isHostRegexChar h (by decide),
      bne_true_of_class isHostRegexChar h (by decide)]
  rfl

theorem hostChar_auth {c : Char} (h : isHostRegexChar c = true) :
    (notQH c && (c != '/')) = true := by
  rw [hostChar_notQH h, bne_true_of_class isHostRegexChar h (by decide)]
  rfl

theorem hostChar_no_ws {c : Char} (h : isHostRegexChar c = true) :
    (!isWS c) = true := by
  rw [ws_false_of_class isHostRegexChar h (by decide) (by decide) (by decide)
      (by decide) (by decide) (by decide)]
  rfl

theorem hostChar_ne_colon {c : Char} (h : isHostRegexChar c = true) :
    (c != ':') = true :=
  bne_true_of_class isHostRegexChar h (by decide)

theorem hostChar_ne_at {c : Char} (h : isHostRegexChar c = true) :
    (c != '@') = true :=
  bne_true_of_class isHostRegexChar h (by decide)

theorem hostChar_ne_qm {c : Char} (h : isHostRegexChar c = true) :
    (c != '?') = true :=
  bne_true_of_class isHostRegexChar h (by decide)

theorem digitChar_host {c : Char} (h : isDigitChar c = true) :
    isHostRegexChar c = true := by
  unfold isHostRegexChar
  rw [h]
  simp

/-! ## String-prefix lemmas -/

theorem isPrefixOf_append_extend {l : List Char} (x : List Char) :
    ∀ {m : List Char}, l.isPrefixOf m = true → l.isPrefixOf (m ++ x) = true := by
  induction l with
  | nil => intro m _; simp [List.isPrefixOf]
  | cons a t ih =>
    intro m h
    cases m with
    | nil => simp [List.isPrefixOf] at h
    | cons b m' =>
      simp only [List.isPrefixOf, Bool.and_eq_true] at h
      simp only [List.cons_append, List.isPrefixOf, Bool.and_eq_true]
      exact ⟨h.1, ih h.2⟩

theorem strAppend_assoc (a b c : String) : (a ++ b) ++ c = a ++ (b ++ c) := by
  rw [str_eq_iff_data]
  simp [strData_append]

theorem strStartsWith_append (a b : String) :
    strStartsWith (a ++ b) a = true := by
  unfold strStartsWith
  rw [strData_append]
  exact isPrefixOf_self_append _ _

theorem strStartsWith_extend (s p x : String) (h : strStartsWith s p = true) :
    strStartsWith (s ++ x) p = true := by
  unfold strStartsWith at *
  rw [strData_append]
  exact isPrefixOf_append_extend _ h

theorem startsWith_ne_empty {u p : String} (hp : p.data ≠ [])
    (h : strStartsWith u p = true) : u ≠ "" := by
  intro he
  subst he
  unfold strStartsWith at h
  cases hd : p.data with
  | nil => exact hp hd
  | cons c t => rw [hd] at h; simp [List.isPrefixOf] at h

/-! ## Claim C4 — upstream status and error mapping (corrected)

The spec claims 502 for transport failures, 404 for DNS failures and
504 for timeouts.  The `request` callback in `proxyRequest` returns 502
for *every* error (`if (error) ... res.status(502)`); only the
pass-through of upstream status codes is as claimed. -/

/-- C4 counterexample: a DNS resolution failure is answered with 502,
not 404, and a timeout with 502, not 504. -/
theorem claim4_counterexample :
    dispatchStatus (FetchOutcome.failed UpstreamError.dns) = 502 ∧
    dispatchStatus (FetchOutcome.failed UpstreamError.timeout) = 502 ∧
    (502 : Nat) ≠ 404 ∧ (502 : Nat) ≠ 504 := by
  refine ⟨rfl, rfl, by decide, by decide⟩

/-- C4 (amended): every upstream status code is returned unchanged, and
every fetch failure — transport, DNS or timeout alike — maps to 502. -/
theorem claim4_amended :
    (∀ s h b, dispatchStatus (FetchOutcome.ok s h b) = s) ∧
    (∀ e, dispatchStatus (FetchOutcome.failed e) = 502) :=
  ⟨fun _ _ _ => rfl, fun _ => rfl⟩

/-! ## Claim C5 — rewrite-error recovery (confirmed)

`rewriteHTML` wraps parsing and rewriting in `try/catch` and returns
the original content on any failure, so the response pipeline never
sees a rewrite error and the body is the unmodified input. -/

/-- C5: when HTML parsing fails, `rewriteHTML` returns its input
unchanged (the rewriter is a total function, so no error escapes to
the response pipeline). -/
theorem claim5_rewrite_error_recovery (html baseUrl proxyBase : String)
    (h : htmlParse html = none) :
    rewriteHTML html baseUrl proxyBase = html := by
  cases hb : parseURL baseUrl <;> simp [rewriteHTML, h, hb]

/-- C5 witness: a concrete unparseable payload (input ends inside a
tag) is passed through byte-for-byte. -/
theorem claim5_witness :
    htmlParse "<a href=" = none ∧
    rewriteHTML "<a href=" "https://example.com/" "http://p" = "<a href=" :=
  ⟨by decide, claim5_rewrite_error_recovery _ _ _ (by decide)⟩

/-! ## Claim C7 — encode short-circuit (corrected)

The source's short-circuit list omits `about:`: an `about:` URL is
*rewritten* into `/proxy/about/...`, not returned unchanged.  (The
returned value is also the *trimmed* input, so inputs with surrounding
whitespace are not returned verbatim either.) -/

/-- C7 counterexample: `about:blank` is not returned unchanged — it is
encoded as a proxy-local URL. -/
theorem claim7_counterexample :
    rewriteURL "about:blank" "https://example.com/page" "http://p" =
      "http://p/proxy/about/blank" ∧
    ("http://p/proxy/about/blank" : String) ≠ "about:blank" := by
  constructor
  · decide
  · decide

/-- C7 (amended): for a whitespace-trimmed input that is empty, `#`, or
begins with `data:`, `javascript:`, `mailto:`, `tel:` or `blob:` —
`about:` is *not* in the source's list — `rewriteURL` returns the input
unchanged. -/
theorem claim7_amended (u baseUrl proxyBase : String) (ht : strTrim u = u)
    (h : u = "" ∨ u = "#" ∨ strStartsWith u "data:" = true ∨
         strStartsWith u "javascript:" = true ∨
         strStartsWith u "mailto:" = true ∨
         strStartsWith u "tel:" = true ∨ strStartsWith u "blob:" = true) :
    rewriteURL u baseUrl proxyBase = u := by
  rcases h with h | h | h | h | h | h | h
  · subst h; rfl
  · subst h
    simp [rewriteURL, (show strTrim "#" = "#" by decide),
      (show ("#" : String) ≠ "" by decide),
      (show shortCircuitB "#" = true by decide)]
  all_goals
    have hne : u ≠ "" := startsWith_ne_empty (by decide) h
  all_goals
    have hsc : shortCircuitB u = true := by simp [shortCircuitB, h]
  all_goals
    simp [rewriteURL, ht, hne, hsc]

/-- C7 witness for the amended claim at a concrete short-circuit
input. -/
theorem claim7_witness :
    rewriteURL "javascript:void(0)" "https://example.com/" "http://p" =
      "javascript:void(0)" :=
  claim7_amended _ _ _ (by decide)
    (Or.inr (Or.inr (Or.inr (Or.inl (by decide)))))

/-! ## Claim C1 — closed navigation (corrected)

Every value passed through `rewriteURL` either becomes a proxy-local
URL built on the request's proxy base, or is returned equal to the
*trimmed* input (short-circuit schemes, `#`, empty, or parse failure).
The claim's "unchanged"/"unchanged verbatim" fails for attribute values
carrying surrounding whitespace, which are returned trimmed. -/

/-- C1 counterexample: a short-circuit value with leading whitespace is
returned trimmed — neither unchanged nor a proxy-local URL on the
request's proxy base. -/
theorem claim1_counterexample :
    rewriteURL " javascript:alert(1)" "https://example.com/" "http://p" =
      "javascript:alert(1)" ∧
    ("javascript:alert(1)" : String) ≠ " javascript:alert(1)" ∧
    strStartsWith "javascript:alert(1)" "http://p" = false := by
  refine ⟨by decide, by decide, by decide⟩

/-- C1 (amended): every output of `rewriteURL` is either a proxy-local
URL extending `proxyBase ++ "/proxy/"` — the proxy base derived from
the incoming request — or equal to the trimmed input (short-circuit
values and values that fail to parse). -/
theorem claim1_rewrite_closure (u baseUrl proxyBase : String) :
    strStartsWith (rewriteURL u baseUrl proxyBase)
      (proxyBase ++ "/proxy/") = true ∨
    rewriteURL u baseUrl proxyBase = strTrim u := by
  simp only [rewriteURL]
  split
  · next h0 => subst h0; right; rfl
  · split
    · right; rfl
    · split
      · right; rfl
      · split
        · right; rfl
        · next p _ =>
          left
          exact strStartsWith_extend _ _ _ (strStartsWith_extend _ _ _
            (strStartsWith_extend _ _ _ (strStartsWith_extend _ _ _
              (strStartsWith_extend _ _ _
                (strStartsWith_append (proxyBase ++ "/proxy/") p.scheme)))))

/-! ## Header-map lemmas -/

theorem mem_setHeader {hs : List (String × String)} {k v : String}
    {p : String × String} (h : p ∈ setHeader hs k v) :
    p ∈ hs ∨ p = (k, v) := by
  unfold setHeader at h
  rcases List.mem_append.mp h with h | h
  · exact Or.inl (List.mem_of_mem_filter h)
  · exact Or.inr (List.mem_singleton.mp h)

theorem setHeader_self (hs : List (String × String)) (k v : String) :
    (k, v) ∈ setHeader hs k v := by
  unfold setHeader
  exact List.mem_append_right _ (List.mem_singleton.mpr rfl)

theorem setHeader_preserve {hs : List (String × String)}
    {p : String × String} (k v : String)
    (hne : strToLower p.1 ≠ strToLower k) (hp : p ∈ hs) :
    p ∈ setHeader hs k v := by
  unfold setHeader
  refine List.mem_append_left _ (List.mem_filter.mpr ⟨hp, ?_⟩)
  simpa [bne_iff_ne] using hne

theorem copyHeaders_aux_not_blocked :
    ∀ (up : List (String × String)) (acc : List (String × String)),
      (∀ p ∈ acc, isBlockedHeader p.1 = false) →
      ∀ p ∈ up.foldl (fun acc kv =>
          if isBlockedHeader kv.1 then acc else setHeader acc kv.1 kv.2) acc,
        isBlockedHeader p.1 = false := by
  intro up
  induction up with
  | nil => intro acc hacc p hp; exact hacc p hp
  | cons kv up' ih =>
    intro acc hacc p hp
    simp only [List.foldl_cons] at hp
    refine ih _ ?_ p hp
    intro q hq
    by_cases hb : isBlockedHeader kv.1
    · rw [if_pos hb] at hq; exact hacc q hq
    · rw [if_neg hb] at hq
      rcases mem_setHeader hq with hq | hq
      · exact hacc q hq
      · rw [hq]; exact Bool.not_eq_true _ ▸ (by simpa using hb)

theorem copyHeaders_not_blocked {up : List (String × String)}
    {p : String × String} (hp : p ∈ copyHeaders up) :
    isBlockedHeader p.1 = false :=
  copyHeaders_aux_not_blocked up [] (by intro q hq; simp at hq) p hp

/-! ## Claim C3 — header discipline (confirmed)

The outgoing header map built by `proxyRequest` for an upstream
response never carries the blocklisted headers (`X-Frame-Options` and
`Referrer-Policy` only with their injected values) and always carries
the three stamped headers. -/

/-- C3: invariants of the outgoing header map. -/
theorem claim3_header_discipline (upstream : List (String × String)) :
    (∀ p ∈ emitHeaders upstream,
      strToLower p.1 ≠ "content-security-policy" ∧
      strToLower p.1 ≠ "content-encoding" ∧
      strToLower p.1 ≠ "transfer-encoding" ∧
      (strToLower p.1 = "x-frame-options" → p.2 = "ALLOWALL") ∧
      (strToLower p.1 = "referrer-policy" → p.2 = "unsafe-url")) ∧
    ("Access-Control-Allow-Origin", "*") ∈ emitHeaders upstream ∧
    ("X-Frame-Options", "ALLOWALL") ∈ emitHeaders upstream ∧
    ("Referrer-Policy", "unsafe-url") ∈ emitHeaders upstream := by
  have hcore : ∀ p ∈ copyHeaders upstream,
      strToLower p.1 ≠ "content-security-policy" ∧
      strToLower p.1 ≠ "content-encoding" ∧
      strToLower p.1 ≠ "transfer-encoding" ∧
      (strToLower p.1 = "x-frame-options" → p.2 = "ALLOWALL") ∧
      (strToLower p.1 = "referrer-policy" → p.2 = "unsafe-url") := by
    intro p hp
    have hb := copyHeaders_not_blocked hp
    simp only [isBlockedHeader, Bool.or_eq_false_iff, beq_eq_false_iff_ne] at hb
    obtain ⟨⟨⟨⟨h1, h2⟩, h3⟩, h4⟩, h5⟩ := hb
    exact ⟨h1, h3, h4, fun hc => absurd hc h2, fun hc => absurd hc h5⟩
  have hstep : ∀ (hs : List (String × String)) (k v : String),
      (∀ p ∈ hs,
        strToLower p.1 ≠ "content-security-policy" ∧
        strToLower p.1 ≠ "content-encoding" ∧
        strToLower p.1 ≠ "transfer-encoding" ∧
        (strToLower p.1 = "x-frame-options" → p.2 = "ALLOWALL") ∧
        (strToLower p.1 = "referrer-policy" → p.2 = "unsafe-url")) →
      (strToLower k ≠ "content-security-policy" ∧
       strToLower k ≠ "content-encoding" ∧
       strToLower k ≠ "transfer-encoding" ∧
       (strToLower k = "x-frame-options" → v = "ALLOWALL") ∧
       (strToLower k = "referrer-policy" → v = "unsafe-url")) →
      ∀ p ∈ setHeader hs k v,
        strToLower p.1 ≠ "content-security-policy" ∧
        strToLower p.1 ≠ "content-encoding" ∧
        strToLower p.1 ≠ "transfer-encoding" ∧
        (strToLower p.1 = "x-frame-options" → p.2 = "ALLOWALL") ∧
        (strToLower p.1 = "referrer-policy" → p.2 = "unsafe-url") := by
    intro hs k v hhs hk p hp
    rcases mem_setHeader hp with hp | hp
    · exact hhs p hp
    · rw [hp]; exact hk
  unfold emitHeaders
  cases hl : lookupHeader upstream "set-cookie" with
  | none =>
    refine ⟨?_, ?_, ?_, ?_⟩
    · exact hstep _ _ _ (hstep _ _ _ (hstep _ _ _ hcore
        ⟨by decide, by decide, by decide,
         fun hc => absurd hc (by decide), fun hc => absurd hc (by decide)⟩)
        ⟨by decide, by decide, by decide,
         fun _ => rfl, fun hc => absurd hc (by decide)⟩)
        ⟨by decide, by decide, by decide,
         fun hc => absurd hc (by decide), fun _ => rfl⟩
    · exact setHeader_preserve _ _ (by decide)
        (setHeader_preserve _ _ (by decide) (setHeader_self _ _ _))
    · exact setHeader_preserve _ _ (by decide) (setHeader_self _ _ _)
    · exact setHeader_self _ _ _
  | some c =>
    refine ⟨?_, ?_, ?_, ?_⟩
    · exact hstep _ _ _ (hstep _ _ _ (hstep _ _ _ (hstep _ _ _ hcore
        ⟨by decide, by decide, by decide,
         fun hc => absurd hc (by decide), fun hc => absurd hc (by decide)⟩)
        ⟨by decide, by decide, by decide,
         fun _ => rfl, fun hc => absurd hc (by decide)⟩)
        ⟨by decide, by decide, by decide,
         fun hc => absurd hc (by decide), fun _ => rfl⟩)
        ⟨by decide, by decide, by decide,
         fun hc => absurd hc (by decide), fun hc => absurd hc (by decide)⟩
    · exact setHeader_preserve _ _ (by decide)
        (setHeader_preserve _ _ (by decide)
          (setHeader_preserve _ _ (by decide) (setHeader_self _ _ _)))
    · exact setHeader_preserve _ _ (by decide)
        (setHeader_preserve _ _ (by decide) (setHeader_self _ _ _))
    · exact setHeader_preserve _ _ (by decide) (setHeader_self _ _ _)

/-- C3 witness: the invariants applied to a concrete upstream header
map that tries to set a CSP and a strict referrer policy. -/
theorem claim3_witness :
    ("X-Frame-Options", "ALLOWALL") ∈
      emitHeaders [("Content-Security-Policy", "default-src"),
                   ("Referrer-Policy", "no-referrer"),
                   ("Content-Type", "text/html")] ∧
    strToLower ("Content-Type" : String) ≠ "content-security-policy" :=
  ⟨(claim3_header_discipline
      [("Content-Security-Policy", "default-src"),
       ("Referrer-Policy", "no-referrer"),
       ("Content-Type", "text/html")]).2.2.1,
   ((claim3_header_discipline
      [("Content-Security-Policy", "default-src"),
       ("Referrer-Policy", "no-referrer"),
       ("Content-Type", "text/html")]).1 ("Content-Type", "text/html")
     (by decide)).1⟩

/-! ## Claim C8 — cookie statelessness (corrected)

The `/proxy*` route builds its outbound request with `jar: true`,
which is the request library's process-global cookie jar: a
`Set-Cookie` received while serving one request is stored and attached
to later outbound requests.  Forwarding of the client's `Cookie` header
and of upstream `Set-Cookie` headers is verbatim as claimed, and the
catch-all route (which sets no jar) is stateless. -/

/-- C8 counterexample: the outbound `Cookie` header of a second
`/proxy` request differs depending on the `Set-Cookie` the upstream
returned for a *different*, earlier request — server-side cookie state
outlives the request. -/
theorem claim8_counterexample :
    secondOutboundCookie ["sid=1"] = some "sid=1" ∧
    secondOutboundCookie [] = none ∧
    secondOutboundCookie ["sid=1"] ≠ secondOutboundCookie [] := by
  refine ⟨rfl, rfl, by decide⟩

/-- C8 (amended): upstream `Set-Cookie` is forwarded verbatim to the
client and the client's `Cookie` header is sent upstream verbatim when
the jar is empty; the catch-all dispatcher sends no cookies and stores
none; but the `/proxy` dispatcher's `jar: true` persists upstream
cookies across requests. -/
theorem claim8_amended :
    (∀ up c, lookupHeader up "set-cookie" = some c →
      ("Set-Cookie", c) ∈ emitHeaders up) ∧
    (∀ c, outboundCookie (proxyRouteOptions (some c)) [] = some c) ∧
    (∀ jar, outboundCookie catchallRouteOptions jar = none) ∧
    (∀ jar sc, stepJar catchallRouteOptions jar sc = jar) ∧
    (∀ jar sc, stepJar (proxyRouteOptions none) jar sc = jar ++ sc) := by
  refine ⟨?_, fun c => rfl, fun jar => rfl, fun jar sc => rfl, fun jar sc => rfl⟩
  intro up c h
  unfold emitHeaders
  rw [h]
  exact setHeader_self _ _ _

/-- C8 witness: forwarding applied to a concrete upstream
`Set-Cookie`. -/
theorem claim8_witness :
    ("Set-Cookie", "sid=abc; Path=/") ∈
      emitHeaders [("set-cookie", "sid=abc; Path=/")] :=
  claim8_amended.1 [("set-cookie", "sid=abc; Path=/")] "sid=abc; Path=/"
    (by decide)

/-! ## Claim C9 — charset detection (confirmed)

`decodeBuffer` selects the `charset=` parameter of Content-Type when it
names an encoding, else sniffs the first 1024 bytes of `text/html`
bodies for a `<meta>` charset, else UTF-8; the name is lowercased with
underscores mapped to hyphens, the four aliases are applied, and an
unsupported encoding falls back to UTF-8. -/

/-- C9: the charset selection implemented by `decodeBuffer`
(`selectedCharset`) coincides with the selection §4.2 of the spec
describes (`charsetSpec`) on every body and Content-Type. -/
theorem claim9_charset_detection (buffer contentType : String) :
    selectedCharset buffer contentType = charsetSpec buffer contentType := by
  by_cases hct : contentType = ""
  · subst hct
    simp [selectedCharset, charsetSpec, detectCharsetFromContentType,
      truthyOpt, strContains, containsList, List.isPrefixOf]
  · have hbne : (contentType != "") = true := by simpa [bne_iff_ne] using hct
    cases hh : truthyOpt (detectCharsetFromContentType contentType) with
    | some c => simp [selectedCharset, charsetSpec, hh]
    | none =>
      cases hs : truthyOpt (detectCharsetFromHTML buffer) with
      | some c =>
        by_cases hx : strContains contentType "text/html" = true <;>
          simp [selectedCharset, charsetSpec, hh, hs, hbne, hx]
      | none =>
        by_cases hx : strContains contentType "text/html" = true <;>
          simp [selectedCharset, charsetSpec, hh, hs, hbne, hx]

/-! ## Claim C10 — YouTube bypass (confirmed)

When the validated target URL contains `youtube.com` or `youtu.be` as
a substring and parses, and the handler can extract a video id, a
search query, or a `youtube.com` hostname, the fetch-and-rewrite
pipeline is bypassed with a locally generated page.  (In fact
`handleYouTube` answers with a local page for *every* parseable target
— its home-page fallback is unconditional — which subsumes the claimed
cases.) -/

/-- C10: extraction success implies the pipeline is bypassed with a
locally generated embed/search/home page. -/
theorem claim10_youtube_bypass (t : String) (u : URLRec)
    (h1 : strContains t "youtube.com" = true ∨ strContains t "youtu.be" = true)
    (hp : parseURL t = some u)
    (h3 : truthyOpt (ytVideoId u) ≠ none ∨ ytSearchQuery u ≠ none ∨
          strContains u.hostname "youtube.com" = true) :
    ∃ pg, youtubeGate t = some pg := by
  have hcond : (strContains t "youtube.com" || strContains t "youtu.be") = true := by
    rcases h1 with h | h <;> simp [h]
  by_cases hyt : strContains u.hostname "youtube.com" = true
  · cases hq : ytSearchQuery u with
    | some q =>
      exact ⟨.search q, by simp [youtubeGate, handleYouTube, hp, hcond, hyt, hq]⟩
    | none =>
      cases hv : truthyOpt (ytVideoId u) with
      | some v =>
        exact ⟨.embed v,
          by simp [youtubeGate, handleYouTube, hp, hcond, hyt, hq, hv]⟩
      | none =>
        exact ⟨.home,
          by simp [youtubeGate, handleYouTube, hp, hcond, hyt, hq, hv]⟩
  · by_cases hbe : u.hostname = "youtu.be"
    · have hnc : strContains "youtu.be" "youtube.com" = false := by decide
      cases hv : truthyOpt (some ⟨takeUntilChar '?' u.pathname.data.tail⟩) with
      | some v =>
        exact ⟨.embed v,
          by simp [youtubeGate, handleYouTube, hp, hcond, hbe, hnc, hv]⟩
      | none =>
        exact ⟨.home,
          by simp [youtubeGate, handleYouTube, hp, hcond, hbe, hnc, hv]⟩
    · exact ⟨.home, by simp [youtubeGate, handleYouTube, hp, hcond, hyt, hbe]⟩

/-- C10 witness: a concrete `watch?v=` URL is answered with the local
embed page. -/
theorem claim10_witness :
    ∃ pg, youtubeGate "https://www.youtube.com/watch?v=dQw4w9WgXcQ" = some pg :=
  claim10_youtube_bypass "https://www.youtube.com/watch?v=dQw4w9WgXcQ"
    ⟨"https", "www.youtube.com", "", "/watch", "?v=dQw4w9WgXcQ", ""⟩
    (Or.inl (by decide)) (by decide) (Or.inl (by decide))

/-! ## Lemmas for the path-form round trip -/

theorem str_eta (s : String) : (⟨s.data⟩ : String) = s := by cases s; rfl

theorem beq_false_of_bne {a b : Char} (h : (a != b) = true) :
    (a == b) = false := by
  simpa [bne] using h

theorem dropWhile_all {p : Char → Bool} {l : List Char}
    (h : l.all p = true) : l.dropWhile p = [] := by
  induction l with
  | nil => rfl
  | cons a t ih =>
    simp only [List.all_cons, Bool.and_eq_true] at h
    simp [List.dropWhile_cons, h.1, ih h.2]

theorem afterLastChar_of_absent {c : Char} {l : List Char}
    (h : l.all (fun a => a != c) = true) : afterLastChar c l = l := by
  unfold afterLastChar
  rw [takeWhile_all (by rwa [List.all_reverse]), List.reverse_reverse]

theorem map_lower_fix {l : List Char}
    (h : l.all (fun c => lowerChar c == c) = true) : lowerList l = l := by
  unfold lowerList
  induction l with
  | nil => rfl
  | cons a t ih =>
    simp only [List.all_cons, Bool.and_eq_true] at h
    simp only [List.map_cons]
    rw [eq_of_beq h.1, ih h.2]

theorem splitHostPort_no_colon {l : List Char}
    (h : l.all (fun a => a != ':') = true) : splitHostPort l = (l, []) := by
  unfold splitHostPort
  rw [if_neg]
  · intro hany
    rw [List.any_eq_true] at hany
    obtain ⟨x, hx, hbx⟩ := hany
    rw [List.all_eq_true] at h
    have := beq_false_of_bne (h x hx)
    rw [this] at hbx
    exact Bool.false_ne_true hbx

theorem splitHostPort_with_port {hn pt : List Char}
    (hpt : pt.all (fun a => a != ':') = true) :
    splitHostPort (hn ++ ':' :: pt) = (hn, pt) := by
  unfold splitHostPort
  rw [if_pos]
  · have hrev : (hn ++ ':' :: pt).reverse = pt.reverse ++ ':' :: hn.reverse := by
      simp
    have hheadf : ∀ c, (':' :: hn.reverse).head? = some c → (c != ':') = false := by
      intro c hc
      simp only [List.head?_cons, Option.some.injEq] at hc
      subst hc; decide
    rw [hrev,
        takeWhile_concat _ (by rwa [List.all_reverse]) hheadf,
        dropWhile_concat _ (by rwa [List.all_reverse]) hheadf]
    simp
  · rw [List.any_eq_true]
    exact ⟨':', List.mem_append_right _ (List.mem_cons_self _ _), by decide⟩

theorem splitPSH_wf {P S F : List Char}
    (hPhead : P.head? = some '/')
    (hPall : P.all notQH = true)
    (hS : S = [] ∨ (S.head? = some '?' ∧ 2 ≤ S.length ∧
            S.all (fun c => c != '#') = true))
    (hF : F = [] ∨ (S ≠ [] ∧ F.head? = some '#' ∧ 2 ≤ F.length)) :
    splitPathSearchHash true (P ++ (S ++ F)) = (P, S, F) := by
  obtain ⟨P', hP⟩ : ∃ P', P = '/' :: P' := by
    cases P with
    | nil => simp at hPhead
    | cons a t =>
      simp only [List.head?_cons, Option.some.injEq] at hPhead
      exact ⟨t, by rw [hPhead]⟩
  have hhead : (P ++ (S ++ F)).head? = some '/' := by
    rw [hP]; rfl
  have hSFhead : ∀ c, (S ++ F).head? = some c → notQH c = false := by
    intro c hc
    rcases hS with hS0 | ⟨hSh, _, _⟩
    · subst hS0
      rcases hF with hF0 | ⟨hSne, _, _⟩
      · subst hF0; simp at hc
      · exact absurd rfl hSne
    · cases S with
      | nil => simp at hSh
      | cons s0 S' =>
        simp only [List.head?_cons, Option.some.injEq] at hSh
        simp only [List.cons_append, List.head?_cons, Option.some.injEq] at hc
        rw [← hc, hSh]; decide
  simp only [splitPathSearchHash]
  rw [hhead]
  have hcond : ¬((some '/' : Option Char) = none ∨
      (some '/' : Option Char) = some '?' ∨
      (some '/' : Option Char) = some '#') := by decide
  rw [if_neg hcond, if_neg (by decide : ¬(some '/' : Option Char) = none),
      if_neg (by decide : ¬((some '/' : Option Char) = some '?' ∨
        (some '/' : Option Char) = some '#'))]
  rw [takeWhile_concat notQH hPall hSFhead,
      dropWhile_concat notQH hPall hSFhead]
  rcases hS with hS0 | ⟨hSh, hSl, hSall⟩
  · subst hS0
    rcases hF with hF0 | ⟨hSne, _, _⟩
    · subst hF0
      simp
    · exact absurd rfl hSne
  · cases S with
    | nil => simp at hSh
    | cons s0 S' =>
      simp only [List.head?_cons, Option.some.injEq] at hSh
      subst hSh
      have hS'all : S'.all (fun c => c != '#') = true := by
        simp only [List.all_cons, Bool.and_eq_true] at hSall
        exact hSall.2
      have hS'ne : S' ≠ [] := by
        intro h0
        subst h0
        simp at hSl
      have hFhead : ∀ c, F.head? = some c → (c != '#') = false := by
        intro c hc
        rcases hF with hF0 | ⟨_, hFh, _⟩
        · subst hF0; simp at hc
        · rw [hc] at hFh
          simp only [Option.some.injEq] at hFh
          rw [hFh]; decide
      simp only [List.cons_append, List.head?_cons, if_pos rfl, List.tail_cons]
      rw [takeWhile_concat _ hS'all hFhead, dropWhile_concat _ hS'all hFhead,
          if_neg hS'ne]
      rcases hF with hF0 | ⟨_, hFh, hFl⟩
      · subst hF0; simp
      · cases F with
        | nil => simp
        | cons f0 F' =>
          simp only [List.head?_cons, Option.some.injEq] at hFh
          subst hFh
          have hF'ne : F' ≠ [] := by
            intro h0; subst h0; simp at hFl
          simp [hF'ne]

theorem data_ne_nil_of_ne_empty {s : String} (h : s ≠ "") : s.data ≠ [] := by
  intro hc
  exact h (str_eq_iff_data.mpr (by rw [hc]))

/-! ## No-op lemmas for the canonicalization steps of `parseSpecial` -/

theorem percentEncode_id {set : Char → Bool} {l : List Char}
    (h : l.all (fun c => !(set c)) = true) : percentEncodeList set l = l := by
  induction l with
  | nil => rfl
  | cons a t ih =>
    simp only [List.all_cons, Bool.and_eq_true, Bool.not_eq_true'] at h
    simp only [percentEncodeList, List.map_cons, List.flatten_cons]
    rw [show percentEncodeChar set a = [a] by
      unfold percentEncodeChar; rw [h.1]; rfl]
    rw [show ((t.map (percentEncodeChar set)).flatten : List Char) =
        percentEncodeList set t from rfl,
      ih (by simpa using h.2)]
    rfl

theorem backslashToSlash_id {l : List Char}
    (h : l.all (fun c => c != '\\') = true) : backslashToSlash l = l := by
  unfold backslashToSlash
  induction l with
  | nil => rfl
  | cons a t ih =>
    simp only [List.all_cons, Bool.and_eq_true] at h
    simp only [List.map_cons]
    rw [if_neg (by simpa [bne_iff_ne] using h.1), ih h.2]

theorem pathSafe_facts {c : Char} (h : isPathSafeChar c = true) :
    pathEncodeSet c = false ∧ (c != '\\') = true := by
  unfold isPathSafeChar at h
  simp only [Bool.and_eq_true, Bool.not_eq_true'] at h
  obtain ⟨⟨⟨⟨h1, h2⟩, h3⟩, h4⟩, h5⟩ := h
  exact ⟨h3, h4⟩

theorem querySafe_fact {c : Char} (h : isQuerySafeChar c = true) :
    queryEncodeSet c = false := by
  unfold isQuerySafeChar at h
  simp only [Bool.and_eq_true, Bool.not_eq_true'] at h
  exact h.2

theorem fragSafe_fact {c : Char} (h : isFragSafeChar c = true) :
    fragEncodeSet c = false := by
  unfold isFragSafeChar at h
  simp only [Bool.and_eq_true, Bool.not_eq_true'] at h
  exact h.2

theorem canonPort_id {d : List Char} (hhead : d.head? ≠ some '0')
    (hne : d ≠ []) : canonPortDigits d = d := by
  obtain ⟨c, t, hd⟩ := List.exists_cons_of_ne_nil hne
  subst hd
  have hc0 : (c == '0') = false := by
    cases hb : c == '0'
    · rfl
    · exact absurd (by rw [eq_of_beq hb]; rfl) hhead
  simp only [canonPortDigits]
  rw [show ((c :: t).dropWhile (fun a => a == '0')) = c :: t by
    simp [List.dropWhile_cons, hc0]]
  rw [if_neg (List.cons_ne_nil c t)]

theorem portPipeline_id {scheme : String} {pt : String}
    (hok : pt = "" ∨
      (pt.data.length ≤ 4 ∧ pt.data.head? ≠ some '0' ∧
       ¬(scheme = "http" ∧ pt = "80") ∧ ¬(scheme = "https" ∧ pt = "443"))) :
    portPipeline scheme pt.data = some pt.data := by
  by_cases hp0 : pt = ""
  · rw [hp0]; rfl
  · obtain ⟨hlen, hhead, h80, h443⟩ := hok.resolve_left hp0
    have hdne : pt.data ≠ [] := data_ne_nil_of_ne_empty hp0
    simp only [portPipeline]
    rw [if_neg hdne, canonPort_id hhead hdne]
    rw [if_neg (by omega)]
    rw [if_neg (by rintro ⟨h5, _⟩; omega)]
    rw [if_neg (by
      rintro (⟨hs, hpd'⟩ | ⟨hs, hpd'⟩)
      · exact h80 ⟨hs, str_eq_iff_data.mpr (by rw [hpd'])⟩
      · exact h443 ⟨hs, str_eq_iff_data.mpr (by rw [hpd'])⟩)]

/-- Parsing the authority/path part of a serialized well-formed URL
recovers its components. -/
theorem parseSpecial_serialize {u : URLRec}
    (hhne : u.hostname ≠ "")
    (hhchars : u.hostname.data.all isHostRegexChar = true)
    (hhlower : u.hostname.data.all (fun c => lowerChar c == c) = true)
    (hpd : u.port.data.all isDigitChar = true)
    (hPhead : u.pathname.data.head? = some '/')
    (hPall : u.pathname.data.all notQH = true)
    (hS : u.search.data = [] ∨ (u.search.data.head? = some '?' ∧
            2 ≤ u.search.data.length ∧
            u.search.data.all (fun c => c != '#') = true))
    (hF : u.hash.data = [] ∨ (u.search.data ≠ [] ∧
            u.hash.data.head? = some '#' ∧ 2 ≤ u.hash.data.length))
    (hPsafe : u.pathname.data.all isPathSafeChar = true)
    (hSsafe : u.search.data.all isQuerySafeChar = true)
    (hFsafe : u.hash.data.all isFragSafeChar = true)
    (hport : u.port = "" ∨
      (u.port.data.length ≤ 4 ∧ u.port.data.head? ≠ some '0' ∧
       ¬(u.scheme = "http" ∧ u.port = "80") ∧
       ¬(u.scheme = "https" ∧ u.port = "443"))) :
    parseSpecial u.scheme
      ('/' :: '/' :: ((hostOf u).data ++
        (u.pathname.data ++ (u.search.data ++ u.hash.data)))) = some u := by
  obtain ⟨sc, hn, pt, pn, se, ha⟩ := u
  simp only at hhne hhchars hhlower hpd hPhead hPall hS hF hPsafe hSsafe hFsafe hport ⊢
  have hbsid : backslashToSlash pn.data = pn.data :=
    backslashToSlash_id (all_mono (fun c hc => (pathSafe_facts hc).2) hPsafe)
  have hpeP : percentEncodeList pathEncodeSet pn.data = pn.data :=
    percentEncode_id (all_mono (fun c hc => by
      rw [Bool.not_eq_true', (pathSafe_facts hc).1]) hPsafe)
  have hpeS : percentEncodeList queryEncodeSet se.data = se.data :=
    percentEncode_id (all_mono (fun c hc => by
      rw [Bool.not_eq_true', querySafe_fact hc]) hSsafe)
  have hpeF : percentEncodeList fragEncodeSet ha.data = ha.data :=
    percentEncode_id (all_mono (fun c hc => by
      rw [Bool.not_eq_true', fragSafe_fact hc]) hFsafe)
  obtain ⟨h0, hn', hhn⟩ : ∃ h0 hn', hn.data = h0 :: hn' :=
    List.exists_cons_of_ne_nil (data_ne_nil_of_ne_empty hhne)
  have hh0 : isHostRegexChar h0 = true := by
    have := hhchars
    rw [hhn, List.all_cons, Bool.and_eq_true] at this
    exact this.1
  have hrest2head : ∀ c,
      (pn.data ++ (se.data ++ ha.data)).head? = some c →
      (notQH c && (c != '/')) = false := by
    intro c hc
    cases hpn : pn.data with
    | nil => rw [hpn] at hPhead; simp at hPhead
    | cons a t =>
      rw [hpn] at hPhead hc
      simp only [List.head?_cons, Option.some.injEq] at hPhead
      simp only [List.cons_append, List.head?_cons, Option.some.injEq] at hc
      rw [← hc, hPhead]; decide
  have hsplit := splitPSH_wf hPhead hPall hS hF
  have hhost : hostOf ⟨sc, hn, pt, pn, se, ha⟩ =
      hn ++ (if pt = "" then "" else ":" ++ pt) := rfl
  by_cases hp0 : pt = ""
  · have hH : (hostOf ⟨sc, hn, pt, pn, se, ha⟩).data = hn.data := by
      rw [hhost, if_pos hp0, strData_append]
      simp
    have hH_all : (hostOf ⟨sc, hn, pt, pn, se, ha⟩).data.all
        (fun a => notQH a && a != '/') = true := by
      rw [hH]; exact all_mono (fun c hc => hostChar_auth hc) hhchars
    have hHhead : ∀ c,
        ((hostOf ⟨sc, hn, pt, pn, se, ha⟩).data ++
          (pn.data ++ (se.data ++ ha.data))).head? = some c →
        (c == '/') = false := by
      intro c hc
      rw [hH, hhn] at hc
      simp only [List.cons_append, List.head?_cons, Option.some.injEq] at hc
      rw [← hc]
      exact beq_false_of_bne (bne_true_of_class isHostRegexChar hh0 (by decide))
    simp only [parseSpecial]
    rw [show ('/' :: '/' :: ((hostOf ⟨sc, hn, pt, pn, se, ha⟩).data ++
          (pn.data ++ (se.data ++ ha.data)))) =
        (['/', '/'] ++ ((hostOf ⟨sc, hn, pt, pn, se, ha⟩).data ++
          (pn.data ++ (se.data ++ ha.data)))) from rfl,
        dropWhile_concat _ (by decide) hHhead,
        takeWhile_concat _ hH_all hrest2head,
        dropWhile_concat _ hH_all hrest2head]
    rw [if_neg (by rw [hH, hhn]; exact fun hc => List.cons_ne_nil _ _ hc)]
    rw [hH,
        afterLastChar_of_absent
          (all_mono (fun c hc => hostChar_ne_at hc) hhchars),
        splitHostPort_no_colon
          (all_mono (fun c hc => hostChar_ne_colon hc) hhchars)]
    rw [if_neg (by rw [hhn]; exact fun hc => List.cons_ne_nil _ _ hc)]
    rw [if_neg (by simp)]
    rw [if_neg (by
      rw [all_mono (fun c hc => hostChar_no_ws hc) hhchars]
      simp)]
    rw [hsplit]
    show some (⟨sc, ⟨lowerList hn.data⟩, ⟨([] : List Char)⟩,
        ⟨percentEncodeList pathEncodeSet (backslashToSlash pn.data)⟩,
        ⟨percentEncodeList queryEncodeSet se.data⟩,
        ⟨percentEncodeList fragEncodeSet ha.data⟩⟩ : URLRec) =
      some ⟨sc, hn, pt, pn, se, ha⟩
    rw [hbsid, hpeP, hpeS, hpeF, map_lower_fix hhlower, hp0]
  · have hptd : pt.data ≠ [] := data_ne_nil_of_ne_empty hp0
    have hH : (hostOf ⟨sc, hn, pt, pn, se, ha⟩).data =
        hn.data ++ ':' :: pt.data := by
      rw [hhost, if_neg hp0, strData_append, strData_append]
      rfl
    have hptauth : pt.data.all (fun a => notQH a && a != '/') = true :=
      all_mono (fun c hc => hostChar_auth (digitChar_host hc)) hpd
    have hH_all : (hostOf ⟨sc, hn, pt, pn, se, ha⟩).data.all
        (fun a => notQH a && a != '/') = true := by
      rw [hH, List.all_append, List.all_cons]
      rw [all_mono (fun c hc => hostChar_auth hc) hhchars, hptauth]
      rfl
    have hHhead : ∀ c,
        ((hostOf ⟨sc, hn, pt, pn, se, ha⟩).data ++
          (pn.data ++ (se.data ++ ha.data))).head? = some c →
        (c == '/') = false := by
      intro c hc
      rw [hH, hhn] at hc
      simp only [List.cons_append, List.head?_cons, Option.some.injEq] at hc
      rw [← hc]
      exact beq_false_of_bne (bne_true_of_class isHostRegexChar hh0 (by decide))
    simp only [parseSpecial]
    rw [show ('/' :: '/' :: ((hostOf ⟨sc, hn, pt, pn, se, ha⟩).data ++
          (pn.data ++ (se.data ++ ha.data)))) =
        (['/', '/'] ++ ((hostOf ⟨sc, hn, pt, pn, se, ha⟩).data ++
          (pn.data ++ (se.data ++ ha.data)))) from rfl,
        dropWhile_concat _ (by decide) hHhead,
        takeWhile_concat _ hH_all hrest2head,
        dropWhile_concat _ hH_all hrest2head]
    rw [if_neg (by rw [hH, hhn]; exact fun hc => List.cons_ne_nil _ _ hc)]
    rw [hH]
    have hno_at : (hn.data ++ ':' :: pt.data).all (fun a => a != '@') = true := by
      rw [List.all_append, List.all_cons]
      rw [all_mono (fun c hc => hostChar_ne_at hc) hhchars,
          all_mono (fun c hc =>
            bne_true_of_class isDigitChar hc (by decide)) hpd]
      rfl
    rw [afterLastChar_of_absent hno_at,
        splitHostPort_with_port
          (all_mono (fun c hc =>
            bne_true_of_class isDigitChar hc (by decide)) hpd)]
    rw [if_neg (by rw [hhn]; exact fun hc => List.cons_ne_nil _ _ hc)]
    rw [if_neg (by rw [hpd]; simp)]
    rw [if_neg (by
      rw [all_mono (fun c hc => hostChar_no_ws hc) hhchars]
      simp)]
    rw [hsplit, portPipeline_id hport]
    show some (⟨sc, ⟨lowerList hn.data⟩, ⟨pt.data⟩,
        ⟨percentEncodeList pathEncodeSet (backslashToSlash pn.data)⟩,
        ⟨percentEncodeList queryEncodeSet se.data⟩,
        ⟨percentEncodeList fragEncodeSet ha.data⟩⟩ : URLRec) =
      some ⟨sc, hn, pt, pn, se, ha⟩
    rw [hbsid, hpeP, hpeS, hpeF, map_lower_fix hhlower]

/-- Parsing the canonical serialization of a well-formed URL recovers
the URL: the model of `new URL(url.href)` is the identity on the
component view. -/
theorem parse_serialize {u : URLRec} (hwf : PathFormWF u) :
    parseURL (serializeURL u) = some u := by
  obtain ⟨hsch, hhne, hhchars, hhlower, hpd, hPhead, hPall', hS', hF', hextra⟩ := hwf
  obtain ⟨hlast, hport, hPsafe, hnodot, hSsafe, hFsafe⟩ := hextra
  have hPall : u.pathname.data.all notQH = true :=
    all_mono (fun c hc => by rw [Bool.and_eq_true] at hc; exact hc.1) hPall'
  have hS : u.search.data = [] ∨ (u.search.data.head? = some '?' ∧
      2 ≤ u.search.data.length ∧
      u.search.data.all (fun c => c != '#') = true) := by
    rcases hS' with h | ⟨h1, h2, h3⟩
    · left; rw [h]
    · exact Or.inr ⟨h1, h2,
        all_mono (fun c hc => by rw [Bool.and_eq_true] at hc; exact hc.1) h3⟩
  have hF : u.hash.data = [] ∨ (u.search.data ≠ [] ∧
      u.hash.data.head? = some '#' ∧ 2 ≤ u.hash.data.length) := by
    rcases hF' with h | ⟨h1, h2, h3, _⟩
    · left; rw [h]
    · exact Or.inr ⟨data_ne_nil_of_ne_empty h1, h2, h3⟩
  have hcore := parseSpecial_serialize hhne hhchars hhlower hpd hPhead hPall hS hF
    hPsafe hSsafe hFsafe hport
  have hdata : (serializeURL u).data =
      u.scheme.data ++ (':' :: '/' :: '/' ::
        ((hostOf u).data ++
          (u.pathname.data ++ (u.search.data ++ u.hash.data)))) := by
    have e0 : serializeURL u =
        u.scheme ++ "://" ++ hostOf u ++ u.pathname ++ u.search ++ u.hash := rfl
    rw [e0, strData_append, strData_append, strData_append, strData_append,
        strData_append]
    rw [show ("://" : String).data = [':', '/', '/'] from rfl]
    simp [List.append_assoc]
  simp only [parseURL, parseURLData]
  rw [hdata]
  have hsufhead : ∀ c, (':' :: '/' :: '/' ::
      ((hostOf u).data ++
        (u.pathname.data ++ (u.search.data ++ u.hash.data)))).head? = some c →
      isSchemeChar c = false := by
    intro c hc
    simp only [List.head?_cons, Option.some.injEq] at hc
    rw [← hc]; decide
  rcases hsch with h | h
  · rw [h, show ("http" : String).data = ['h', 't', 't', 'p'] from rfl]
    rw [takeWhile_concat isSchemeChar (by decide) hsufhead,
        dropWhile_concat isSchemeChar (by decide) hsufhead]
    simp only [List.head?_cons]
    rw [if_neg (by decide)]
    rw [show (⟨lowerList ['h', 't', 't', 'p']⟩ : String) = "http" by decide]
    rw [if_pos (Or.inl rfl)]
    rw [h] at hcore
    exact hcore
  · rw [h, show ("https" : String).data = ['h', 't', 't', 'p', 's'] from rfl]
    rw [takeWhile_concat isSchemeChar (by decide) hsufhead,
        dropWhile_concat isSchemeChar (by decide) hsufhead]
    simp only [List.head?_cons]
    rw [if_neg (by decide)]
    rw [show (⟨lowerList ['h', 't', 't', 'p', 's']⟩ : String) = "https" by decide]
    rw [if_pos (Or.inr rfl)]
    rw [h] at hcore
    exact hcore

theorem isPrefixOf_cons_same {a : Char} {l1 l2 : List Char} :
    ((a :: l1).isPrefixOf (a :: l2)) = l1.isPrefixOf l2 := by
  simp [List.isPrefixOf]

theorem hostOf_no_ws {u : URLRec}
    (hhchars : u.hostname.data.all isHostRegexChar = true)
    (hpd : u.port.data.all isDigitChar = true) :
    (hostOf u).data.all (fun c => !isWS c) = true := by
  by_cases hp0 : u.port = ""
  · rw [show (hostOf u).data = u.hostname.data by
      simp [hostOf, hp0, strData_append]]
    exact all_mono (fun c hc => hostChar_no_ws hc) hhchars
  · rw [show (hostOf u).data = u.hostname.data ++ ':' :: u.port.data by
      simp [hostOf, hp0, strData_append]]
    rw [List.all_append, List.all_cons]
    rw [all_mono (fun c hc => hostChar_no_ws hc) hhchars,
        all_mono (fun c hc => hostChar_no_ws (digitChar_host hc)) hpd]
    rfl

theorem serialize_no_ws {u : URLRec} (hwf : PathFormWF u) :
    (serializeURL u).data.all (fun c => !isWS c) = true := by
  obtain ⟨hsch, hhne, hhchars, hhlower, hpd, hPhead, hPall', hS', hF', _⟩ := hwf
  have e0 : serializeURL u =
      u.scheme ++ "://" ++ hostOf u ++ u.pathname ++ u.search ++ u.hash := rfl
  rw [e0, strData_append, strData_append, strData_append, strData_append,
      strData_append]
  simp only [List.all_append, Bool.and_eq_true]
  refine ⟨⟨⟨⟨⟨?_, by decide⟩, hostOf_no_ws hhchars hpd⟩,
    all_mono (fun c hc => by rw [Bool.and_eq_true] at hc; exact hc.2) hPall'⟩,
    ?_⟩, ?_⟩
  · rcases hsch with h | h <;> rw [h] <;> decide
  · rcases hS' with h | ⟨_, _, h3⟩
    · rw [h]; rfl
    · exact all_mono (fun c hc => by rw [Bool.and_eq_true] at hc; exact hc.2) h3
  · rcases hF' with h | ⟨_, _, _, h4⟩
    · rw [h]; rfl
    · exact h4

/-- `rewriteURL` on the canonical serialization of a well-formed URL
emits exactly the path-form proxy-local URL. -/
theorem rewriteURL_encodes {u : URLRec} (hwf : PathFormWF u)
    (baseUrl proxyBase : String) :
    rewriteURL (serializeURL u) baseUrl proxyBase =
      proxyBase ++ "/proxy/" ++ u.scheme ++ "/" ++ hostOf u ++
        u.pathname ++ u.search ++ u.hash := by
  have hsch := hwf.1
  have hdata : (serializeURL u).data =
      u.scheme.data ++ (':' :: '/' :: '/' ::
        ((hostOf u).data ++
          (u.pathname.data ++ (u.search.data ++ u.hash.data)))) := by
    have e0 : serializeURL u =
        u.scheme ++ "://" ++ hostOf u ++ u.pathname ++ u.search ++ u.hash := rfl
    rw [e0, strData_append, strData_append, strData_append, strData_append,
        strData_append]
    rw [show ("://" : String).data = [':', '/', '/'] from rfl]
    simp [List.append_assoc]
  have hne : serializeURL u ≠ "" := by
    apply str_ne_empty_of_data
    rw [hdata]
    rcases hsch with h | h <;> rw [h] <;> simp
  have htrim : strTrim (serializeURL u) = serializeURL u :=
    strTrim_of_no_ws (serialize_no_ws hwf)
  have hd2 : (serializeURL u).data = 'h' :: 't' :: 't' :: 'p' ::
      (if u.scheme = "http" then
        (':' :: '/' :: '/' ::
          ((hostOf u).data ++
            (u.pathname.data ++ (u.search.data ++ u.hash.data))))
      else ('s' :: ':' :: '/' :: '/' ::
          ((hostOf u).data ++
            (u.pathname.data ++ (u.search.data ++ u.hash.data))))) := by
    rcases hsch with h | h
    · rw [if_pos h, hdata, h]; rfl
    · rcases eq_or_ne u.scheme "http" with h0 | h0
      · rw [h0] at h; exact absurd h (by decide)
      · rw [if_neg h0, hdata, h]; rfl
  have hbq : ((serializeURL u) == "#") = false := by
    apply beq_eq_false_iff_ne.mpr
    intro hc
    have hd3 := hd2
    rw [hc, show ("#" : String).data = ['#'] from rfl] at hd3
    injection hd3 with h1 _
    exact absurd h1 (by decide)
  have hsc : shortCircuitB (serializeURL u) = false := by
    unfold shortCircuitB strStartsWith
    rw [hbq, hd2]
    simp only [show ("data:" : String).data = 'd' :: "ata:".data from rfl,
      show ("javascript:" : String).data = 'j' :: "avascript:".data from rfl,
      show ("mailto:" : String).data = 'm' :: "ailto:".data from rfl,
      show ("tel:" : String).data = 't' :: "el:".data from rfl,
      show ("blob:" : String).data = 'b' :: "lob:".data from rfl]
    rw [isPrefixOf_head_ne (by decide), isPrefixOf_head_ne (by decide),
        isPrefixOf_head_ne (by decide), isPrefixOf_head_ne (by decide),
        isPrefixOf_head_ne (by decide)]
    rfl
  have hnotpp : strStartsWith (serializeURL u) "//" = false := by
    unfold strStartsWith
    rw [hd2, show ("//" : String).data = '/' :: ['/'] from rfl,
        isPrefixOf_head_ne (by decide)]
  have hhttp : (strStartsWith (serializeURL u) "http://" ||
      strStartsWith (serializeURL u) "https://") = true := by
    rcases hsch with h | h
    · have : strStartsWith (serializeURL u) "http://" = true := by
        unfold strStartsWith
        rw [hdata, h]
        rw [show ("http" : String).data ++ (':' :: '/' :: '/' ::
            ((hostOf u).data ++
              (u.pathname.data ++ (u.search.data ++ u.hash.data)))) =
          ("http://" : String).data ++
            ((hostOf u).data ++
              (u.pathname.data ++ (u.search.data ++ u.hash.data))) from rfl]
        exact isPrefixOf_self_append _ _
      rw [this]; rfl
    · have : strStartsWith (serializeURL u) "https://" = true := by
        unfold strStartsWith
        rw [hdata, h]
        rw [show ("https" : String).data ++ (':' :: '/' :: '/' ::
            ((hostOf u).data ++
              (u.pathname.data ++ (u.search.data ++ u.hash.data)))) =
          ("https://" : String).data ++
            ((hostOf u).data ++
              (u.pathname.data ++ (u.search.data ++ u.hash.data))) from rfl]
        exact isPrefixOf_self_append _ _
      rw [this]
      simp
  simp only [rewriteURL]
  rw [if_neg hne, htrim, if_neg hne, hsc]
  simp only [Bool.false_eq_true, if_false]
  rw [hnotpp]
  simp only [Bool.false_eq_true, if_false]
  rw [hhttp]
  simp only [if_true]
  rw [parse_serialize hwf]

/-- Evaluation scaffold for `resolveProxyPath`: split the request line
into its path part and raw query part. -/
theorem resolveProxyPath_eval {reqUrl : String} {pre suf : List Char}
    (hdata : reqUrl.data = pre ++ suf)
    (hpre : pre.all notQH = true)
    (hsufhead : ∀ c, suf.head? = some c → notQH c = false)
    (hqs : (if (pre ++ suf).any (fun a => a == '?') = true then
        (pre ++ suf).dropWhile (fun a => a != '?') else []) = suf) :
    resolveProxyPath reqUrl =
      (match pathFormMatch pre with
       | some (proto, host, path) =>
         some (proto ++ "://" ++ host ++
           (if path = "" then "/" else path) ++ (⟨suf⟩ : String))
       | none => none) := by
  simp only [resolveProxyPath]
  rw [hdata, takeWhile_concat notQH hpre hsufhead, hqs]

theorem pathFormMatch_http (rest : List Char) :
    pathFormMatch ("/proxy/".data ++ ("http".data ++ ('/' :: rest))) =
      pathFormHost "http" rest := rfl

theorem pathFormMatch_https (rest : List Char) :
    pathFormMatch ("/proxy/".data ++ ("https".data ++ ('/' :: rest))) =
      pathFormHost "https" rest := rfl

theorem path_head_stops {pn : String} (hPhead : pn.data.head? = some '/')
    (p : Char → Bool) (hp : p '/' = false) :
    ∀ c, pn.data.head? = some c → p c = false := by
  intro c hc
  rw [hPhead] at hc
  injection hc with h1
  rw [← h1]
  exact hp

theorem pathFormHost_encoded_noport (proto : String) {hn pn : String}
    (hhne : hn ≠ "") (hhchars : hn.data.all isHostRegexChar = true)
    (hPhead : pn.data.head? = some '/') :
    pathFormHost proto (hn.data ++ pn.data) = some (proto, hn, pn) := by
  have hstop : ∀ c, pn.data.head? = some c → isHostRegexChar c = false := by
    intro c hc
    rw [hPhead] at hc
    simp only [Option.some.injEq] at hc
    rw [← hc]; decide
  simp only [pathFormHost]
  rw [takeWhile_concat isHostRegexChar hhchars hstop,
      dropWhile_concat isHostRegexChar hhchars hstop]
  rw [if_neg (data_ne_nil_of_ne_empty hhne)]
  obtain ⟨t, hpn⟩ : ∃ t, pn.data = '/' :: t := by
    cases hp : pn.data with
    | nil => rw [hp] at hPhead; simp at hPhead
    | cons a t =>
      rw [hp] at hPhead
      simp only [List.head?_cons, Option.some.injEq] at hPhead
      exact ⟨t, by rw [hPhead]⟩
  rw [hpn]
  show some (proto, (⟨hn.data⟩ : String), (⟨'/' :: t⟩ : String)) = _
  rw [str_eta, show ('/' :: t) = pn.data from hpn.symm, str_eta]

theorem pathFormHost_encoded_port (proto : String) {hn pt pn : String}
    (hhne : hn ≠ "") (hhchars : hn.data.all isHostRegexChar = true)
    (hptne : pt ≠ "") (hpd : pt.data.all isDigitChar = true)
    (hPhead : pn.data.head? = some '/') :
    pathFormHost proto ((hn.data ++ ':' :: pt.data) ++ pn.data) =
      some (proto, ⟨hn.data ++ ':' :: pt.data⟩, pn) := by
  have hcstop : ∀ c, (':' :: (pt.data ++ pn.data)).head? = some c →
      isHostRegexChar c = false := by
    intro c hc
    simp only [List.head?_cons, Option.some.injEq] at hc
    rw [← hc]; decide
  have hdstop : ∀ c, pn.data.head? = some c → isDigitChar c = false := by
    intro c hc
    rw [hPhead] at hc
    simp only [Option.some.injEq] at hc
    rw [← hc]; decide
  have harr : (hn.data ++ ':' :: pt.data) ++ pn.data =
      hn.data ++ (':' :: (pt.data ++ pn.data)) := by simp
  simp only [pathFormHost]
  rw [harr, takeWhile_concat isHostRegexChar hhchars hcstop,
      dropWhile_concat isHostRegexChar hhchars hcstop]
  rw [if_neg (data_ne_nil_of_ne_empty hhne)]
  show (let d := (pt.data ++ pn.data).takeWhile isDigitChar
        if d = [] then some (proto, (⟨hn.data⟩ : String),
          (⟨':' :: (pt.data ++ pn.data)⟩ : String))
        else some (proto, ⟨hn.data ++ ':' :: d⟩,
          ⟨(pt.data ++ pn.data).dropWhile isDigitChar⟩)) = _
  rw [takeWhile_concat isDigitChar hpd hdstop,
      dropWhile_concat isDigitChar hpd hdstop]
  rw [if_neg (data_ne_nil_of_ne_empty hptne)]

/-- The path-form resolver recovers the serialized upstream URL from
the proxy-local path emitted for a well-formed URL. -/
theorem decode_encoded {u : URLRec} (hwf : PathFormWF u) :
    resolveProxyPath ("/proxy/" ++ u.scheme ++ "/" ++ hostOf u ++
      u.pathname ++ u.search ++ u.hash) = some (serializeURL u) := by
  obtain ⟨sc, hn, pt, pn, se, ha⟩ := u
  obtain ⟨hsch, hhne, hhchars, hhlower, hpd, hPhead, hPall', hS', hF', _⟩ := hwf
  simp only at hsch hhne hhchars hhlower hpd hPhead hPall' hS' hF' ⊢
  have hPall : pn.data.all notQH = true :=
    all_mono (fun c hc => by rw [Bool.and_eq_true] at hc; exact hc.1) hPall'
  have hPne : pn.data ≠ [] := by
    intro hc; rw [hc] at hPhead; simp at hPhead
  have hPneS : pn ≠ "" := fun hc => hPne (by rw [hc])
  have hhd : hostOf ⟨sc, hn, pt, pn, se, ha⟩ =
      hn ++ (if pt = "" then "" else ":" ++ pt) := rfl
  have hSFhead : ∀ c, (se.data ++ ha.data).head? = some c →
      notQH c = false := by
    intro c hc
    rcases hS' with hS0 | ⟨hSh, _, _⟩
    · rcases hF' with hF0 | ⟨hSne, _, _, _⟩
      · rw [str_eq_iff_data.mp hS0, str_eq_iff_data.mp hF0] at hc
        simp at hc
      · exact absurd hS0 hSne
    · cases hsd : se.data with
      | nil => rw [hsd] at hSh; simp at hSh
      | cons s0 S' =>
        rw [hsd] at hSh hc
        simp only [List.head?_cons, Option.some.injEq] at hSh
        simp only [List.cons_append, List.head?_cons, Option.some.injEq] at hc
        rw [← hc, hSh]; decide
  have hHall_notQH : (hostOf ⟨sc, hn, pt, pn, se, ha⟩).data.all notQH = true := by
    by_cases hp0 : pt = ""
    · rw [show (hostOf ⟨sc, hn, pt, pn, se, ha⟩).data = hn.data by
        rw [hhd, if_pos hp0, strData_append]; simp]
      exact all_mono (fun c hc => hostChar_notQH hc) hhchars
    · rw [show (hostOf ⟨sc, hn, pt, pn, se, ha⟩).data =
          hn.data ++ ':' :: pt.data by
        rw [hhd, if_neg hp0, strData_append, strData_append]; rfl]
      rw [List.all_append, List.all_cons]
      rw [all_mono (fun c hc => hostChar_notQH hc) hhchars,
          all_mono (fun c hc => hostChar_notQH (digitChar_host hc)) hpd]
      rfl
  have hHall_neq : (hostOf ⟨sc, hn, pt, pn, se, ha⟩).data.all
      (fun a => a != '?') = true :=
    all_mono (fun c hc => by
      unfold notQH at hc; rw [Bool.and_eq_true] at hc; exact hc.1) hHall_notQH
  have hL : ("/proxy/" ++ sc ++ "/" ++ (hostOf ⟨sc, hn, pt, pn, se, ha⟩) ++
      pn ++ se ++ ha).data =
      ("/proxy/".data ++ (sc.data ++ ('/' ::
        ((hostOf ⟨sc, hn, pt, pn, se, ha⟩).data ++ pn.data)))) ++
      (se.data ++ ha.data) := by
    simp [strData_append, List.append_assoc,
      show ("/" : String).data = ['/'] from rfl]
  have hpre_notQH : ("/proxy/".data ++ (sc.data ++ ('/' ::
      ((hostOf ⟨sc, hn, pt, pn, se, ha⟩).data ++ pn.data)))).all notQH = true := by
    simp only [List.all_append, List.all_cons, Bool.and_eq_true]
    refine ⟨by decide, ?_, by decide, hHall_notQH, hPall⟩
    rcases hsch with h | h <;> rw [h] <;> decide
  have hpre_neq : ("/proxy/".data ++ (sc.data ++ ('/' ::
      ((hostOf ⟨sc, hn, pt, pn, se, ha⟩).data ++ pn.data)))).all
      (fun a => a != '?') = true := by
    simp only [List.all_append, List.all_cons, Bool.and_eq_true]
    refine ⟨by decide, ?_, by decide, hHall_neq,
      all_mono (fun c hc => by
        unfold notQH at hc; rw [Bool.and_eq_true] at hc; exact hc.1) hPall⟩
    rcases hsch with h | h <;> rw [h] <;> decide
  have hqs : (if (("/proxy/".data ++ (sc.data ++ ('/' ::
        ((hostOf ⟨sc, hn, pt, pn, se, ha⟩).data ++ pn.data)))) ++
        (se.data ++ ha.data)).any (fun a => a == '?') = true then
        (("/proxy/".data ++ (sc.data ++ ('/' ::
          ((hostOf ⟨sc, hn, pt, pn, se, ha⟩).data ++ pn.data)))) ++
          (se.data ++ ha.data)).dropWhile (fun a => a != '?')
      else []) = se.data ++ ha.data := by
    rcases hS' with hS0 | ⟨hSh, _, _⟩
    · rcases hF' with hF0 | ⟨hSne, _, _, _⟩
      · rw [if_neg]
        · rw [str_eq_iff_data.mp hS0, str_eq_iff_data.mp hF0]
          rfl
        · rw [str_eq_iff_data.mp hS0, str_eq_iff_data.mp hF0]
          simp only [show ("" : String).data = [] from rfl, List.append_nil,
            List.nil_append]
          rw [any_eq_false_of_all (fun c hc => beq_false_of_bne hc) hpre_neq]
          simp
      · exact absurd hS0 hSne
    · obtain ⟨S', hsd⟩ : ∃ S', se.data = '?' :: S' := by
        cases hsd : se.data with
        | nil => rw [hsd] at hSh; simp at hSh
        | cons s0 S' =>
          rw [hsd] at hSh
          simp only [List.head?_cons, Option.some.injEq] at hSh
          exact ⟨S', by rw [hSh]⟩
      have hqhead : ∀ c, (se.data ++ ha.data).head? = some c →
          (c != '?') = false := by
        intro c hc
        rw [hsd] at hc
        simp only [List.cons_append, List.head?_cons, Option.some.injEq] at hc
        rw [← hc]; decide
      rw [if_pos, dropWhile_concat _ hpre_neq hqhead]
      rw [List.any_eq_true]
      refine ⟨'?', ?_, by decide⟩
      apply List.mem_append_right
      rw [hsd]
      exact List.mem_append_left _ (List.mem_cons_self _ _)
  rw [resolveProxyPath_eval hL hpre_notQH hSFhead hqs]
  by_cases hp0 : pt = ""
  · have hH : (hostOf ⟨sc, hn, pt, pn, se, ha⟩).data = hn.data := by
      rw [hhd, if_pos hp0, strData_append]; simp
    rw [hH]
    rcases hsch with h | h <;> rw [h]
    · rw [pathFormMatch_http,
          pathFormHost_encoded_noport "http" hhne hhchars hPhead]
      rw [show (match (some ("http", hn, pn) :
            Option (String × String × String)) with
          | some (proto, host, path) =>
            some (proto ++ "://" ++ host ++
              (if path = "" then "/" else path) ++
              ((⟨se.data ++ ha.data⟩ : String)))
          | none => none) =
          some ("http" ++ "://" ++ hn ++ (if pn = "" then "/" else pn) ++
            (⟨se.data ++ ha.data⟩ : String)) from rfl]
      rw [if_neg hPneS]
      simp only [Option.some.injEq, serializeURL, hostOf]
      rw [str_eq_iff_data]
      simp [strData_append, List.append_assoc, hp0]
    · rw [pathFormMatch_https,
          pathFormHost_encoded_noport "https" hhne hhchars hPhead]
      rw [show (match (some ("https", hn, pn) :
            Option (String × String × String)) with
          | some (proto, host, path) =>
            some (proto ++ "://" ++ host ++
              (if path = "" then "/" else path) ++
              ((⟨se.data ++ ha.data⟩ : String)))
          | none => none) =
          some ("https" ++ "://" ++ hn ++ (if pn = "" then "/" else pn) ++
            (⟨se.data ++ ha.data⟩ : String)) from rfl]
      rw [if_neg hPneS]
      simp only [Option.some.injEq, serializeURL, hostOf]
      rw [str_eq_iff_data]
      simp [strData_append, List.append_assoc, hp0]
  · have hH : (hostOf ⟨sc, hn, pt, pn, se, ha⟩).data =
        hn.data ++ ':' :: pt.data := by
      rw [hhd, if_neg hp0, strData_append, strData_append]; rfl
    rw [hH]
    rcases hsch with h | h <;> rw [h]
    · rw [pathFormMatch_http,
          pathFormHost_encoded_port "http" hhne hhchars hp0 hpd hPhead]
      rw [show (match (some ("http", (⟨hn.data ++ ':' :: pt.data⟩ : String), pn) :
            Option (String × String × String)) with
          | some (proto, host, path) =>
            some (proto ++ "://" ++ host ++
              (if path = "" then "/" else path) ++
              ((⟨se.data ++ ha.data⟩ : String)))
          | none => none) =
          some ("http" ++ "://" ++ (⟨hn.data ++ ':' :: pt.data⟩ : String) ++
            (if pn = "" then "/" else pn) ++
            (⟨se.data ++ ha.data⟩ : String)) from rfl]
      rw [if_neg hPneS]
      simp only [Option.some.injEq, serializeURL, hostOf]
      rw [str_eq_iff_data]
      simp [strData_append, List.append_assoc, hp0]
    · rw [pathFormMatch_https,
          pathFormHost_encoded_port "https" hhne hhchars hp0 hpd hPhead]
      rw [show (match (some ("https", (⟨hn.data ++ ':' :: pt.data⟩ : String), pn) :
            Option (String × String × String)) with
          | some (proto, host, path) =>
            some (proto ++ "://" ++ host ++
              (if path = "" then "/" else path) ++
              ((⟨se.data ++ ha.data⟩ : String)))
          | none => none) =
          some ("https" ++ "://" ++ (⟨hn.data ++ ':' :: pt.data⟩ : String) ++
            (if pn = "" then "/" else pn) ++
            (⟨se.data ++ ha.data⟩ : String)) from rfl]
      rw [if_neg hPneS]
      simp only [Option.some.injEq, serializeURL, hostOf]
      rw [str_eq_iff_data]
      simp [strData_append, List.append_assoc, hp0]

theorem stripProxyBase_append (pb X : String) :
    stripProxyBase pb (pb ++ X) = X := by
  unfold stripProxyBase
  rw [strStartsWith_append]
  simp only [if_true]
  rw [str_eq_iff_data, str_mk_data, strData_append, List.drop_left]

/-! ## Claim C2 — codec round trip (corrected)

The path-form round trip holds for WHATWG-canonical well-formed URLs
whose fragment only occurs alongside a query.  It fails in general: the
request path is cut at `#` and the raw query string is taken from the
first `?`, so a fragment with no query is dropped by the resolver (and
userinfo or non-`[\w.-]` hosts cannot be represented at all).  The
well-formedness domain is exactly the class of URLs `new URL` leaves
untouched: default ports (`:80` on http, `:443` on https) elided,
non-default ports canonical (no leading zeros, within range), components
free of characters in their WHATWG percent-encode sets, no backslashes,
no `.`/`..` path segments, and a host whose last label is non-numeric
(so the host parser does not reinterpret it as an IPv4 address). -/

/-- C2 counterexample: a URL with a fragment but no query does not
round-trip — the fragment is lost. -/
theorem claim2_counterexample :
    rewriteURL "https://example.com/p#f" "https://example.com/" "http://p" =
      "http://p/proxy/https/example.com/p#f" ∧
    resolveProxyPath (stripProxyBase "http://p"
      "http://p/proxy/https/example.com/p#f") =
      some "https://example.com/p" ∧
    some ("https://example.com/p" : String) ≠
      some "https://example.com/p#f" := by
  refine ⟨by decide, by decide, by decide⟩

/-- C2 (amended): for every WHATWG-canonical well-formed URL — http(s)
scheme, nonempty lowercase `[\w.-]` host with a non-numeric last label,
a canonical non-default port or none, a `/`-led path with no dot
segments over characters the path percent-encoder leaves verbatim, a
query and fragment likewise over their encoders' verbatim alphabets,
fragment only in the presence of a query, no userinfo — encoding
through `rewriteURL` and decoding the resulting proxy path with the
path-form resolver yields the URL back exactly, raw query bytes and
fragment included. -/
theorem claim2_roundtrip (u : URLRec) (baseUrl proxyBase : String)
    (hwf : PathFormWF u) :
    resolveProxyPath (stripProxyBase proxyBase
      (rewriteURL (serializeURL u) baseUrl proxyBase)) =
      some (serializeURL u) := by
  rw [rewriteURL_encodes hwf]
  have harr : proxyBase ++ "/proxy/" ++ u.scheme ++ "/" ++ hostOf u ++
      u.pathname ++ u.search ++ u.hash =
      proxyBase ++ ("/proxy/" ++ u.scheme ++ "/" ++ hostOf u ++
        u.pathname ++ u.search ++ u.hash) := by
    simp only [strAppend_assoc]
  rw [harr, stripProxyBase_append]
  exact decode_encoded hwf

/-- C2 witness: the round trip at a concrete URL with raw query bytes
and a fragment. -/
theorem claim2_witness :
    resolveProxyPath (stripProxyBase "http://p"
      (rewriteURL
        (serializeURL ⟨"https", "example.com", "", "/a", "?q=1%202", "#f"⟩)
        "https://example.com/" "http://p")) =
      some (serializeURL ⟨"https", "example.com", "", "/a", "?q=1%202", "#f"⟩) :=
  claim2_roundtrip ⟨"https", "example.com", "", "/a", "?q=1%202", "#f"⟩
    "https://example.com/" "http://p" (by decide)

/-! ## Claim C6 — idempotence (corrected)

`rewriteHTML` is not idempotent and the encoder does not recognize
already-proxy-local URLs: re-encoding `pb/proxy/s/h/rest` wraps it in a
second `/proxy/<pb-scheme>/<pb-host>/` layer, and each `rewriteHTML`
pass injects a fresh copy of the shim into `<head>`. -/

set_option maxRecDepth 100000 in
/-- C6 counterexample: the encoder maps an already-proxy-local URL to a
*different* (doubly encoded) string, and applying `rewriteHTML` twice
differs from applying it once. -/
theorem claim6_counterexample :
    rewriteURL (rewriteURL "https://example.com/a" "https://example.com/"
        "http://p") "https://example.com/" "http://p" ≠
      rewriteURL "https://example.com/a" "https://example.com/" "http://p" ∧
    rewriteHTML (rewriteHTML "<head></head>" "https://example.com/" "http://p")
        "https://example.com/" "http://p" ≠
      rewriteHTML "<head></head>" "https://example.com/" "http://p" := by
  refine ⟨by decide, by decide⟩

/-- C6 (amended): re-encoding an already-proxy-local URL
`http://<ph>/proxy/...` against the proxy base `http://<ph>` does not
return it unchanged — it wraps it in another `/proxy/http/<ph>` layer. -/
theorem claim6_amended (ph path baseUrl : String)
    (hwf : PathFormWF ⟨"http", ph, "", path, "", ""⟩) :
    rewriteURL ("http://" ++ ph ++ path) baseUrl ("http://" ++ ph) =
      "http://" ++ ph ++ "/proxy/http/" ++ ph ++ path := by
  have h := rewriteURL_encodes hwf baseUrl ("http://" ++ ph)
  have hser : serializeURL ⟨"http", ph, "", path, "", ""⟩ =
      "http://" ++ ph ++ path := by
    rw [str_eq_iff_data]
    simp [serializeURL, hostOf, strData_append]
  rw [hser] at h
  rw [h, str_eq_iff_data]
  simp [strData_append, hostOf, List.append_assoc]

/-- C6 witness for the amended claim: the concrete double encoding. -/
theorem claim6_witness :
    rewriteURL "http://p/proxy/https/example.com/a" "https://example.com/"
      "http://p" = "http://p/proxy/http/p/proxy/https/example.com/a" := by
  have h := claim6_amended "p" "/proxy/https/example.com/a"
    "https://example.com/" (by decide)
  rw [show ("http://" ++ "p" ++ "/proxy/https/example.com/a" : String) =
      "http://p/proxy/https/example.com/a" by decide] at h
  rw [show ("http://" ++ "p" ++ "/proxy/http/" ++ "p" ++
      "/proxy/https/example.com/a" : String) =
      "http://p/proxy/http/p/proxy/https/example.com/a" by decide] at h
  exact h

end WebProxy

